import Mathlib

/-!
Verification development for the gec-annotation-platform backend
(src/backend/app/routers/texts.py and src/backend/app/models/entities.py).

The Python routines are shallowly embedded as executable Lean functions.
Conventions used throughout:

* Python strings are Lean Strings; character-level loops work on List Char.
* Python ints are Lean Int (token indices may be negative, e.g. the minus-one
  noop sentinel); database ids and sizes are Nat where the source cannot
  produce negatives.
* JSON payload dicts are embedded as a typed structure holding exactly the
  keys the source reads; absent keys are none.  The camelCase fallback keys
  (moveFrom/moveTo/moveLen/spaceBefore/sourceId) are merged with their
  snake_case twins, matching the get-first-then-fallback reads in the source.
* hashlib.sha256 is an external library primitive; it enters the model as an
  explicit hash parameter (String to String).  Every property proved here is
  independent of the concrete hash function, and witnesses instantiate it
  with a concrete function.
* Python regular-expression character classes \w and \s are modelled over
  the ASCII range (all inputs appearing in the claims are ASCII).
* Python sorted is modelled by a stable insertion sort (stableSortBy).
-/

/-- Model of Python str.isspace for the ASCII range. -/
def pyIsSpace (c : Char) : Bool :=
  c = ' ' || c = '\t' || c = '\n' || c = '\r' || c = '\x0b' || c = '\x0c'

/-- Model of Python str.isalnum for the ASCII range. -/
def pyIsAlnum (c : Char) : Bool :=
  c.isAlpha || c.isDigit

/-- Model of the regex class \w (word character) for the ASCII range. -/
def pyIsWordChar (c : Char) : Bool :=
  pyIsAlnum c || c = '_'

/-- Python truthiness of an optional string (None and the empty string are falsy). -/
def pyTruthyStr : Option String → Bool
  | none => false
  | some s => s ≠ ""

/-- Model of the Python idiom (x or d) on an optional string. -/
def pyOrStr (x : Option String) (d : String) : String :=
  match x with
  | none => d
  | some s => if s = "" then d else s

/-- Model of the Python idiom (x or None) on an optional string. -/
def pyStrOrNone (x : Option String) : Option String :=
  if pyTruthyStr x then x else none

/-- Model of the Python idiom (x or d) on an integer. -/
def pyOrInt (x : Int) (d : Int) : Int :=
  if x = 0 then d else x

/-- Model of Python str.strip (strip ASCII whitespace from both ends). -/
def pyStrip (s : String) : String :=
  String.mk (((s.data.dropWhile pyIsSpace).reverse.dropWhile pyIsSpace).reverse)

/-- Model of Python str.split() with no argument: split on whitespace runs,
dropping empty chunks.  Implemented by a fuel recursion over the characters. -/
def pySplitGo : Nat → List Char → List String
  | 0, _ => []
  | fuel + 1, cs =>
    let rest := cs.dropWhile pyIsSpace
    match rest.takeWhile (fun c => ! pyIsSpace c) with
    | [] => []
    | w => [String.mk w] ++ pySplitGo fuel (rest.drop w.length)

/-- Model of Python str.split() with no argument. -/
def pySplit (s : String) : List String :=
  pySplitGo (s.data.length + 1) s.data

/-- Model of Python str.find(sub, start) for a nonempty needle: smallest index
i with start ≤ i at which the needle occurs, else -1. -/
def pyStrFind (src pat : List Char) (start : Nat) : Int :=
  match (List.range (src.length + 1)).find?
      (fun i => decide (start ≤ i) && pat.isPrefixOf (src.drop i)) with
  | some i => (i : Int)
  | none => -1

/-- Stable insertion of an element into a list sorted by le: the new element
goes after every existing element that compares le to it, so equal keys keep
their original order (model of the stability of Python sorted). -/
def stableInsert (le : α → α → Bool) (a : α) : List α → List α
  | [] => [a]
  | b :: bs => if le b a then b :: stableInsert le a bs else a :: b :: bs

/-- Stable sort (model of Python sorted, which is a stable sort). -/
def stableSortBy (le : α → α → Bool) (l : List α) : List α :=
  l.foldl (fun acc a => stableInsert le a acc) []

theorem stableInsert_perm (le : α → α → Bool) (a : α) (l : List α) :
    List.Perm (stableInsert le a l) (a :: l) := by
  induction l with
  | nil => simp [stableInsert]
  | cons b bs ih =>
    simp only [stableInsert]
    split
    · exact ((ih.cons b).trans (List.Perm.swap a b bs))
    · exact List.Perm.refl _

theorem stableSortBy_perm (le : α → α → Bool) (l : List α) :
    List.Perm (stableSortBy le l) l := by
  suffices h : ∀ acc, List.Perm (l.foldl (fun acc a => stableInsert le a acc) acc) (acc ++ l) by
    simpa using h []
  induction l with
  | nil => intro acc; simp
  | cons a as ih =>
    intro acc
    simp only [List.foldl_cons]
    refine (ih (stableInsert le a acc)).trans ?_
    have h1 := (stableInsert_perm le a acc).append_right as
    refine h1.trans ?_
    simpa using (@List.perm_middle _ a acc as).symm

theorem stableInsert_pairwise (le : α → α → Bool)
    (htrans : ∀ a b c, le a b → le b c → le a c)
    (htot : ∀ a b, le a b ∨ le b a)
    (a : α) (l : List α) (hl : l.Pairwise (fun x y => le x y)) :
    (stableInsert le a l).Pairwise (fun x y => le x y) := by
  induction l with
  | nil => simp [stableInsert]
  | cons b bs ih =>
    rcases List.pairwise_cons.mp hl with ⟨hb, hbs⟩
    simp only [stableInsert]
    split
    · rename_i hba
      refine List.pairwise_cons.mpr ⟨?_, ih hbs⟩
      intro x hx
      have := (stableInsert_perm le a bs).mem_iff.mp hx
      rcases List.mem_cons.mp this with h1 | h2
      · subst h1; exact hba
      · exact hb x h2
    · rename_i hba
      have hab : le a b := by
        rcases htot a b with h | h
        · exact h
        · exact absurd h (by simpa using hba)
      refine List.pairwise_cons.mpr ⟨?_, hl⟩
      intro x hx
      rcases List.mem_cons.mp hx with h1 | h2
      · subst h1; exact hab
      · exact htrans a b x hab (hb x h2)

theorem stableSortBy_pairwise (le : α → α → Bool)
    (htrans : ∀ a b c, le a b → le b c → le a c)
    (htot : ∀ a b, le a b ∨ le b a)
    (l : List α) :
    (stableSortBy le l).Pairwise (fun x y => le x y) := by
  suffices h : ∀ acc, acc.Pairwise (fun x y => le x y) →
      (l.foldl (fun acc a => stableInsert le a acc) acc).Pairwise (fun x y => le x y) by
    exact h [] (by simp)
  induction l with
  | nil => intro acc hacc; simpa using hacc
  | cons a as ih =>
    intro acc hacc
    exact ih _ (stableInsert_pairwise le htrans htot a acc hacc)

/-!
Tokenizer (texts.py lines 977-1058).  The three special-token regular
expressions are embedded as explicit anchored matchers returning the number of
characters consumed by the (greedy, backtracking) match, exactly following
Python re semantics for these patterns.
-/

/-- Character class of the phone-number body [\d()\- ]. -/
def isPhoneBodyChar (c : Char) : Bool :=
  c.isDigit || c = '(' || c = ')' || c = '-' || c = ' '

/-- Character class of the e-mail local part [A-Za-z0-9._%+-]. -/
def isEmailLocalChar (c : Char) : Bool :=
  pyIsAlnum c || c = '.' || c = '_' || c = '%' || c = '+' || c = '-'

/-- Character class of the e-mail domain part [A-Za-z0-9.-]. -/
def isEmailDomainChar (c : Char) : Bool :=
  pyIsAlnum c || c = '.' || c = '-'

/-- Character class of the URL body [^\s,;:!]. -/
def isUrlBodyChar (c : Char) : Bool :=
  ! pyIsSpace c && c ≠ ',' && c ≠ ';' && c ≠ ':' && c ≠ '!'

/-- Index of the last element of a list satisfying p, if any. -/
def lastIdxWhere (p : α → Bool) (l : List α) : Option Nat :=
  match (l.reverse.findIdx? p) with
  | some i => some (l.length - 1 - i)
  | none => none

/-- Anchored match of the phone regex \+\d[\d()\- ]*\d at the head of the
list: a plus sign, a digit, then a greedy run of body characters backtracked
so that the match ends on a digit.  Returns the matched length. -/
def matchPhone : List Char → Option Nat
  | '+' :: d :: rest =>
    if d.isDigit then
      let run := rest.takeWhile isPhoneBodyChar
      match lastIdxWhere Char.isDigit run with
      | some p => some (p + 3)
      | none => none
    else none
  | _ => none

/-- Anchored match of the e-mail regex
[A-Za-z0-9._%+-]+@[A-Za-z0-9.-]+\.[A-Za-z]{2,} at the head of the list.
The local part is a maximal class run followed by an at sign; the domain part
is a greedy class run backtracked to the last dot that is followed by at
least two letters, the final letter run being maximal. -/
def matchEmail (cs : List Char) : Option Nat :=
  let loc := cs.takeWhile isEmailLocalChar
  if loc.length = 0 then none
  else
    match cs.drop loc.length with
    | '@' :: domrest =>
      let run := domrest.takeWhile isEmailDomainChar
      let ok := fun p : Nat =>
        (run.drop p).head? = some '.' &&
          decide (2 ≤ ((domrest.drop (p + 1)).takeWhile Char.isAlpha).length)
      match lastIdxWhere (fun _ => true) ((List.range run.length).filter ok) with
      | some j =>
        match ((List.range run.length).filter ok).get? j with
        | some p =>
          some (loc.length + 1 + p + 1 + ((domrest.drop (p + 1)).takeWhile Char.isAlpha).length)
        | none => none
      | none => none
    | _ => none

/-- Anchored match of the URL regex (https?:\/\/[^\s,;:!]+|www\.[^\s,;:!]+)
at the head of the list. -/
def matchUrl (cs : List Char) : Option Nat :=
  let tryBody := fun (pre : List Char) =>
    if pre.isPrefixOf cs then
      let body := (cs.drop pre.length).takeWhile isUrlBodyChar
      if body.length = 0 then none else some (pre.length + body.length)
    else none
  match tryBody ['h', 't', 't', 'p', 's', ':', '/', '/'] with
  | some n => some n
  | none =>
    match tryBody ['h', 't', 't', 'p', ':', '/', '/'] with
    | some n => some n
    | none => tryBody ['w', 'w', 'w', '.']

/-- The special matchers in source order (phone, e-mail, URL); the first that
matches at the current position wins (texts.py lines 977-983, 1011-1028). -/
def matchSpecialAt (cs : List Char) : Option Nat :=
  match matchPhone cs with
  | some n => some n
  | none =>
    match matchEmail cs with
    | some n => some n
    | none => matchUrl cs

/-- Model of re.sub with pattern [.,;:!?]+$ and empty replacement: strip a
trailing run of these punctuation characters. -/
def stripTrailingPunct (s : List Char) : List Char :=
  (s.reverse.dropWhile (fun c => c = '.' || c = ',' || c = ';' || c = ':' || c = '!' || c = '?')).reverse

/-- Model of _is_punct_only: nonempty and no alphanumeric character. -/
def isPunctOnly (s : List Char) : Bool :=
  ! s.isEmpty && s.all (fun c => ! pyIsAlnum c)

/-- Full anchored match (regex with both anchors) of the phone pattern. -/
def fullMatchPhone (s : List Char) : Bool :=
  match s with
  | '+' :: d :: rest =>
    d.isDigit &&
      (match rest.reverse with
       | [] => false
       | last :: mid => last.isDigit && mid.all isPhoneBodyChar)
  | _ => false

/-- Full anchored match of the e-mail pattern: the local part runs to the
first at sign, and only the split at the last dot of the domain can satisfy
the pattern (any earlier dot leaves a non-letter in the final letter run). -/
def fullMatchEmail (s : List Char) : Bool :=
  let loc := s.takeWhile (fun c => c ≠ '@')
  (loc.length ≠ 0 && loc.all isEmailLocalChar) &&
    match s.drop loc.length with
    | '@' :: dom =>
      (match lastIdxWhere (fun c => c = '.') dom with
       | some p =>
         decide (1 ≤ p) && (dom.take p).all isEmailDomainChar &&
           (dom.drop (p + 1)).all Char.isAlpha && decide (2 ≤ dom.length - (p + 1))
       | none => false)
    | _ => false

/-- Full anchored match of the URL pattern. -/
def fullMatchUrl (s : List Char) : Bool :=
  let tryFull := fun (pre : List Char) =>
    pre.isPrefixOf s &&
      decide (pre.length < s.length) && (s.drop pre.length).all isUrlBodyChar
  tryFull ['h', 't', 't', 'p', 's', ':', '/', '/'] ||
    tryFull ['h', 't', 't', 'p', ':', '/', '/'] ||
    tryFull ['w', 'w', 'w', '.']

/-- Model of _is_special_token: strip trailing punctuation and test the three
full-match patterns (texts.py lines 991-995). -/
def isSpecialTok (s : List Char) : Bool :=
  let trimmed := stripTrailingPunct s
  ! trimmed.isEmpty &&
    (fullMatchPhone trimmed || fullMatchEmail trimmed || fullMatchUrl trimmed)

/-- A token produced by the tokenizer: literal text, kind (word, punct or
special) and whether whitespace preceded it (entities section 3 of the spec;
transient, not persisted). -/
structure Tok where
  text : String
  kind : String
  space_before : Bool
deriving Repr, DecidableEq

/-- Anchored match of the base regex (\w+)|[^\w\s]: a maximal word-character
run, else a single character that is neither word nor space. -/
def baseMatchLen (cs : List Char) : Option Nat :=
  match cs with
  | [] => none
  | c :: _ =>
    if pyIsWordChar c then some (cs.takeWhile pyIsWordChar).length
    else if ! pyIsSpace c then some 1
    else none

/-- Main tokenizer loop of _tokenize_to_tokens (texts.py lines 998-1044),
fuel recursion: each iteration consumes at least one character. -/
def tokenizeGo : Nat → List Char → List Tok → List Tok
  | 0, _, acc => acc.reverse
  | fuel + 1, cs, acc =>
    let spaces := cs.takeWhile pyIsSpace
    let had_space := ! spaces.isEmpty
    let rest := cs.drop spaces.length
    if rest.isEmpty then acc.reverse
    else
      match matchSpecialAt rest with
      | some rawLen =>
        let raw := rest.take rawLen
        let value := stripTrailingPunct raw
        let advance := if value.length = 0 then rawLen else value.length
        let acc' :=
          if value.length = 0 then acc
          else ⟨String.mk value, "special", if acc.isEmpty then false else had_space⟩ :: acc
        tokenizeGo fuel (rest.drop advance) acc'
      | none =>
        match baseMatchLen rest with
        | some len =>
          let value := rest.take len
          let tok : Tok :=
            ⟨String.mk value, if isPunctOnly value then "punct" else "word",
              if acc.isEmpty then false else had_space⟩
          tokenizeGo fuel (rest.drop len) (tok :: acc)
        | none => tokenizeGo fuel (rest.drop 1) acc

/-- Model of _tokenize_to_tokens (texts.py lines 998-1044). -/
def tokenizeToToks (s : String) : List Tok :=
  tokenizeGo (s.data.length + 1) s.data []

/-- Model of Python text.split with separator newline: maximal segments
between newline characters, keeping empty segments. -/
def splitLinesGo : Nat → List Char → List String
  | 0, cs => [String.mk cs]
  | fuel + 1, cs =>
    let seg := cs.takeWhile (fun c => c ≠ '\n')
    match cs.drop seg.length with
    | [] => [String.mk seg]
    | _ :: tail => String.mk seg :: splitLinesGo fuel tail

/-- Model of Python text.split with separator newline. -/
def pySplitNewline (s : String) : List String :=
  splitLinesGo (s.data.length + 1) s.data

/-- Helper for _compute_line_breaks: cumulative visible-token counts at each
line boundary (a break is recorded after every line except the last). -/
def lineBreaksGo : List String → Nat → List Nat
  | [], _ => []
  | [_], _ => []
  | l :: rest, count =>
    let c := count + (tokenizeToToks l).length
    c :: lineBreaksGo rest c

/-- Model of _compute_line_breaks (texts.py lines 1047-1058). -/
def computeLineBreaks (s : String) : List Nat :=
  if s = "" then [] else lineBreaksGo (pySplitNewline s) 0

/-!
Payload and annotation records.  A payload embeds the JSON dict keys read by
the source (schemas/common.py AnnotationDetailPayload plus the extra keys
tolerated by its extra-allow config: move_from, move_to, move_len and the
fragment-level space_before).  An absent key is none.
-/

/-- One after_tokens fragment (schemas/common.py TokenFragmentPayload). -/
structure Frag where
  id : Option String := none
  text : String := ""
  origin : String := "base"
  space_before : Option Bool := none
  source_id : Option String := none
deriving Repr, DecidableEq

/-- The JSON payload of one edit operation. -/
structure Payload where
  operation : Option String := none
  text_sha256 : Option String := none
  before_tokens : Option (List String) := none
  after_tokens : Option (List Frag) := none
  text_tokens : Option (List String) := none
  text_tokens_sha256 : Option String := none
  move_from : Option Int := none
  move_to : Option Int := none
  move_len : Option Int := none
  source : Option String := none
deriving Repr, DecidableEq

/-- The duck-typed view of one edit record that the renderer reads: both
database Annotation rows and incoming pydantic items expose these fields
(texts.py accesses them uniformly in _apply_annotations). -/
structure AnnView where
  id : Option Int := none
  start_token : Int := 0
  end_token : Int := 0
  replacement : Option String := none
  payload : Payload := {}
deriving Repr, DecidableEq

/-- Model of _build_tokens_from_snapshot (texts.py lines 1061-1085): walk the
source text left to right, matching each snapshot string at or after the
cursor to recover space_before and kind. -/
def buildToksFromSnapshotGo (src : List Char) : List String → Nat → Nat → List Tok
  | [], _, _ => []
  | text :: rest, cursor, idx =>
    let spaces := (src.drop cursor).takeWhile pyIsSpace
    let hasSpace0 := ! spaces.isEmpty
    let cursor1 := cursor + spaces.length
    let nextIndex : Int := if text = "" then -1 else pyStrFind src text.data cursor1
    let hasSpace :=
      if nextIndex > (cursor1 : Int) then
        hasSpace0 ||
          ((src.drop cursor1).take (nextIndex.toNat - cursor1)).any pyIsSpace
      else hasSpace0
    let cursor2 := if nextIndex > (cursor1 : Int) then nextIndex.toNat else cursor1
    let kind :=
      if isSpecialTok text.data then "special"
      else if isPunctOnly text.data then "punct" else "word"
    let tok : Tok := ⟨text, kind, if idx = 0 then false else hasSpace⟩
    let cursor3 := if nextIndex ≥ 0 then nextIndex.toNat + text.data.length else cursor2
    tok :: buildToksFromSnapshotGo src rest cursor3 (idx + 1)

/-- Model of _build_tokens_from_snapshot. -/
def buildToksFromSnapshot (snapshot : List String) (source : String) : List Tok :=
  buildToksFromSnapshotGo source.data snapshot 0 0

/-- Model of _resolve_tokens_snapshot_for_source (texts.py lines 1088-1098):
use the first nonempty persisted token snapshot, else live tokenization. -/
def resolveToksSnapshotForSource (source : String) (anns : List AnnView) : List Tok :=
  let snapshot :=
    match anns.find? (fun a =>
        match a.payload.text_tokens with
        | some l => ! l.isEmpty
        | none => false) with
    | some a => a.payload.text_tokens.getD []
    | none => []
  if ! snapshot.isEmpty then buildToksFromSnapshot snapshot source
  else tokenizeToToks source

/-- Model of _tokenize_edited_text (texts.py lines 1105-1125): split on
whitespace runs, every run marking space_before on the following chunk. -/
def tokenizeEditedGo : Nat → List Char → Bool → List Tok
  | 0, _, _ => []
  | fuel + 1, cs, sb =>
    let spaces := cs.takeWhile pyIsSpace
    let sb1 := sb || ! spaces.isEmpty
    let rest := cs.drop spaces.length
    match rest.takeWhile (fun c => ! pyIsSpace c) with
    | [] => []
    | w =>
      ⟨String.mk w, if isPunctOnly w then "punct" else "word", sb1⟩ ::
        tokenizeEditedGo fuel (rest.drop w.length) false

/-- Model of _tokenize_edited_text. -/
def tokenizeEditedText (s : String) : List Tok :=
  tokenizeEditedGo (s.data.length + 1) s.data false

/-- Inner loop of _build_tokens_from_fragments for one fragment (texts.py
lines 1135-1163): the first produced token takes the explicit fragment
space_before, else the join default for a later fragment, else the caller
default; a later fragment never joins a non-punct token without a space. -/
def fragToks (fragIndex : Nat) (defaultFirstSpace : Option Bool)
    (explicitSpace : Option Bool) (text : String) : List Tok :=
  (tokenizeEditedText text).enum.map (fun p =>
    let idx := p.1
    let tok := p.2
    let sb0 := tok.space_before
    let sb1 :=
      if idx = 0 then
        match explicitSpace with
        | some b => b
        | none =>
          if fragIndex > 0 then (if tok.kind = "punct" then false else true)
          else match defaultFirstSpace with
            | some b => b
            | none => sb0
      else sb0
    let sb2 :=
      if idx = 0 && fragIndex > 0 && sb1 = false && tok.kind ≠ "punct" then true else sb1
    { tok with space_before := sb2 })

/-- Model of _build_tokens_from_fragments (texts.py lines 1128-1164). -/
def buildToksFromFragments (fragments : List Frag) (fallbackText : String)
    (defaultFirstSpace : Option Bool) : List Tok :=
  let baseFragments :=
    if ! fragments.isEmpty then fragments
    else if fallbackText ≠ "" then [{ text := fallbackText : Frag }]
    else []
  (baseFragments.enum.map (fun p =>
    let fragIndex := p.1
    let frag := p.2
    if frag.text = "" then []
    else fragToks fragIndex defaultFirstSpace frag.space_before frag.text)).flatten

/-- Model of _get_leading_space (texts.py lines 1167-1172). -/
def getLeadingSpace (toks : List Tok) (index : Int) : Bool :=
  if index ≤ 0 then false
  else if index ≥ (toks.length : Int) then true
  else
    match toks.get? index.toNat with
    | some t => t.space_before
    | none => true

/-- Model of _build_text_from_tokens_with_breaks (texts.py lines 1175-1197):
reassemble the token stream, inserting a single space before a token whose
space_before is not false unless at a line start, and re-inserting the
recorded number of line breaks after each visible-token position. -/
def buildTextGo (breaks : List Nat) : List Tok → Nat → Bool → String
  | [], _, _ => ""
  | tok :: rest, visibleIdx, atLineStart =>
    if tok.text = "" then buildTextGo breaks rest visibleIdx atLineStart
    else
      let needsSpace := ! atLineStart && tok.space_before
      let count := breaks.count (visibleIdx + 1)
      (if needsSpace then " " else "") ++ tok.text ++
        String.mk (List.replicate count '\n') ++
        buildTextGo breaks rest (visibleIdx + 1) (count ≠ 0)

/-- Model of _build_text_from_tokens_with_breaks. -/
def buildTextFromToksWithBreaks (toks : List Tok) (breaks : List Nat) : String :=
  buildTextGo breaks toks 0 true

/-- Model of _normalize_operation (texts.py lines 1214-1222). -/
def normalizeOperation (a : AnnView) : String :=
  let p := a.payload
  let op := pyOrStr p.operation (if pyTruthyStr a.replacement then "replace" else "noop")
  let before := p.before_tokens.getD []
  let after := p.after_tokens.getD []
  if op = "noop" && (! before.isEmpty || ! after.isEmpty || pyTruthyStr a.replacement) then
    "replace"
  else op

/-- Sort key of _apply_annotations (texts.py lines 1235-1243): moves first,
then by (start_token, end_token, id). -/
def annSortKey (a : AnnView) : Nat × Int × Int × Int :=
  ((if normalizeOperation a = "move" then 0 else 1),
    pyOrInt a.start_token 0, pyOrInt a.end_token 0, pyOrInt (a.id.getD 0) 0)

/-- Lexicographic comparison of annotation sort keys. -/
def annLe (x y : AnnView) : Bool :=
  let a := annSortKey x
  let b := annSortKey y
  decide (a.1 < b.1) ||
    (decide (a.1 = b.1) &&
      (decide (a.2.1 < b.2.1) ||
        (decide (a.2.1 = b.2.1) &&
          (decide (a.2.2.1 < b.2.2.1) ||
            (decide (a.2.2.1 = b.2.2.1) && decide (a.2.2.2 ≤ b.2.2.2))))))

/-- State of the _apply_annotations loop: the working token array and the
list of (original_start_index, length_delta) offset records. -/
structure ApplyState where
  working : List Tok
  deltas : List (Int × Int)
deriving Repr

/-- Model of the inner offset_at: sum of deltas whose start is at most the
index (texts.py lines 1229-1230). -/
def offsetAt (deltas : List (Int × Int)) (index : Int) : Int :=
  (deltas.filter (fun d => decide (d.1 ≤ index))).foldl (fun s d => s + d.2) 0

/-- Model of the inner clamp_index (texts.py lines 1232-1233). -/
def clampIdx (len : Nat) (idx : Int) : Nat :=
  (max 0 (min (len : Int) idx)).toNat

/-- One iteration of the _apply_annotations loop (texts.py lines 1244-1298). -/
def applyOne (st : ApplyState) (a : AnnView) : ApplyState :=
  let p := a.payload
  let operation := normalizeOperation a
  if operation = "noop" then st
  else if operation = "move" then
    let move_from := p.move_from.getD (pyOrInt a.start_token 0)
    let move_to := p.move_to.getD (pyOrInt a.start_token 0)
    let after := p.after_tokens.getD []
    let before := p.before_tokens.getD []
    let move_len : Int :=
      match p.move_len with
      | some n => n
      | none =>
        if after.length ≠ 0 then (after.length : Int)
        else if before.length ≠ 0 then (before.length : Int)
        else max 1 (pyOrInt a.end_token 0 - pyOrInt a.start_token 0 + 1)
    let working := st.working
    let source_start := clampIdx working.length (move_from + offsetAt st.deltas move_from)
    let source_end : Int :=
      max (source_start : Int) (min ((working.length : Int) - 1) ((source_start : Int) + move_len - 1))
    let cnt := (source_end + 1 - (source_start : Int)).toNat
    let moved := (working.drop source_start).take cnt
    let working1 := working.take source_start ++ working.drop (source_start + cnt)
    let ii0 := clampIdx working1.length (move_to + offsetAt st.deltas move_to)
    let ii1 : Int := if (ii0 : Int) > (source_start : Int) then (ii0 : Int) - moved.length else ii0
    let insertion_index := clampIdx working1.length ii1
    let leading_space := getLeadingSpace working1 (insertion_index : Int)
    let moved' :=
      match moved with
      | [] => ([] : List Tok)
      | m :: ms => { m with space_before := leading_space } :: ms
    { st with working := working1.take insertion_index ++ moved' ++ working1.drop insertion_index }
  else
    let start_original := pyOrInt a.start_token 0
    let end_original := pyOrInt a.end_token start_original
    let working := st.working
    let target_start := clampIdx working.length (start_original + offsetAt st.deltas start_original)
    let leading_space := getLeadingSpace working (target_start : Int)
    let before := p.before_tokens.getD []
    let remove_count0 : Int :=
      if operation ≠ "insert" then
        (if ! before.isEmpty then (before.length : Int)
         else max 0 (end_original - start_original + 1))
      else 0
    let remove_count : Nat :=
      if (target_start : Int) + remove_count0 > (working.length : Int) then
        working.length - target_start
      else remove_count0.toNat
    let after := p.after_tokens.getD []
    let replacement_text := a.replacement.getD ""
    let new_tokens0 := buildToksFromFragments after replacement_text (some leading_space)
    let new_tokens := if operation = "delete" then [] else new_tokens0
    { working := working.take target_start ++ new_tokens ++ working.drop (target_start + remove_count),
      deltas := st.deltas ++ [(start_original, (new_tokens.length : Int) - (remove_count : Int))] }

/-- Model of _apply_annotations (texts.py lines 1225-1299). -/
def applyAnns (toks : List Tok) (anns : List AnnView) : List Tok :=
  ((stableSortBy annLe anns).foldl applyOne { working := toks, deltas := [] }).working

/-- Model of _render_corrected_text (texts.py lines 1302-1306). -/
def renderCorrectedText (source : String) (anns : List AnnView) : String :=
  let baseToks := resolveToksSnapshotForSource source anns
  let lineBreaks := computeLineBreaks source
  buildTextFromToksWithBreaks (applyAnns baseToks anns) lineBreaks

/-!
Annotation store and the save_annotations reconciler (texts.py lines 335-653,
entities.py lines 122-147).  Database rows are embedded as records in lists;
the Python dicts existing_by_id / existing_by_span / other_by_id /
other_by_span hold object references, embedded here as row ids resolved
against the current store (so field mutations are visible through the maps,
exactly as for the Python objects, while the map keys stay as stale as the
Python dict keys do).
-/

/-- One row of the annotations table (entities.py Annotation; version has
column default 1). -/
structure DbAnn where
  id : Nat
  text_id : Nat
  author_id : Nat
  start_token : Int
  end_token : Int
  replacement : Option String
  error_type_id : Int
  payload : Payload
  version : Int
deriving Repr, DecidableEq

/-- The snapshot dict written into an AnnotationVersion row
(texts.py lines 605-612). -/
structure AnnSnapshot where
  start_token : Int
  end_token : Int
  replacement : Option String
  payload : Payload
  error_type_id : Int
deriving Repr, DecidableEq

/-- One row of the annotation_versions table (entities.py AnnotationVersion). -/
structure AnnVersionRow where
  annotation_id : Nat
  version : Int
  snapshot : AnnSnapshot
deriving Repr, DecidableEq

/-- The snapshot of a row as save_annotations persists it. -/
def snapOf (a : DbAnn) : AnnSnapshot :=
  ⟨a.start_token, a.end_token, a.replacement, a.payload, a.error_type_id⟩

/-- The slice of database state save_annotations touches; nextId models the
autoincrement id sequence (every stored id is below it). -/
structure SaveDb where
  anns : List DbAnn
  versions : List AnnVersionRow
  nextId : Nat
deriving Repr, DecidableEq

/-- One incoming item of the save request (schemas/common.py
AnnotationPayload). -/
structure SaveItem where
  id : Option Nat := none
  start_token : Int := 0
  end_token : Int := 0
  replacement : Option String := none
  error_type_id : Int := 0
  payload : Payload := {}
deriving Repr, DecidableEq

/-- The save request body.  The annotations and client_version fields are
schemas/common.py AnnotationSaveRequest; the deleted_ids field is read by the
route (texts.py line 458) and is specified by the spec interface section
(its pydantic declaration is not part of src). -/
structure SaveRequest where
  anns : List SaveItem := []
  client_version : Int := 0
  deleted_ids : List Nat := []
deriving Repr, DecidableEq

/-- The client-visible failures of save_annotations: the stale client-version
conflict (409), the stale text-hash conflict (409) and the two structural
payload rejections (400). -/
inductive SaveErr where
  | staleVersion
  | staleHash
  | invalidOp
  | invalidOrigin
deriving Repr, DecidableEq

/-- Model of _sha256_text: the hash primitive itself (texts.py lines 55-56). -/
def sha256Text (hash : String → String) (s : String) : String :=
  hash s

/-- Join a list of strings with a separator. -/
def joinSep (sep : String) : List String → String
  | [] => ""
  | [x] => x
  | x :: xs => x ++ sep ++ joinSep sep xs

/-- Model of _sha256_tokens: hash of the tokens joined with U+241F
(texts.py lines 59-61). -/
def sha256Toks (hash : String → String) (tokens : List String) : String :=
  sha256Text hash (joinSep "␟" tokens)

/-- Model of the inner _validate_payload (texts.py lines 395-418).  The
dict-shape rejections (a non-list after_tokens, a fragment that is not an
object or lacks id or text) are not representable in the typed payload; the
operation-kind and origin checks are. -/
def validatePayload (p : Payload) : Option SaveErr :=
  let opOk :=
    match p.operation with
    | some op => op = "replace" || op = "delete" || op = "insert" || op = "move" || op = "noop"
    | none => false
  if ! opOk then some .invalidOp
  else if (p.after_tokens.getD []).any
      (fun t => t.origin ≠ "base" && t.origin ≠ "inserted") then some .invalidOrigin
  else none

/-- Model of the inner _normalize_token_fragment (texts.py lines 420-435). -/
def normalizeTokenFragment (f : Frag) :
    Option String × String × String × Option Bool × Option String :=
  (f.id, f.text, f.origin, f.space_before, f.source_id)

/-- The content signature computed by the inner _payload_signature
(texts.py lines 437-455). -/
structure PaySig where
  op : String
  before : List String
  after : List (Option String × String × String × Option Bool × Option String)
  move_from : Option Int
  move_to : Option Int
  move_len : Option Int
deriving Repr, DecidableEq

/-- Model of the inner _payload_signature. -/
def payloadSignature (p : Payload) (replacement : Option String) : PaySig :=
  { op := pyOrStr p.operation (if pyTruthyStr replacement then "replace" else "noop"),
    before := p.before_tokens.getD [],
    after := (p.after_tokens.getD []).map normalizeTokenFragment,
    move_from := p.move_from,
    move_to := p.move_to,
    move_len := p.move_len }

/-- Model of the inner _annotation_matches (texts.py lines 532-544). -/
def annMatches (candidate : DbAnn) (expectedSig : PaySig)
    (expectedReplacement : Option String) (expectedErrorType : Int) : Bool :=
  if pyStrOrNone candidate.replacement ≠ pyStrOrNone expectedReplacement then false
  else if candidate.error_type_id ≠ expectedErrorType then false
  else decide (payloadSignature candidate.payload candidate.replacement = expectedSig)

/-- Model of the token-snapshot defaulting block of save_annotations
(texts.py lines 505-514): a payload without a nonempty text_tokens list gets
the whitespace-split words of the current text content and their hash; a
payload with tokens but no hash gets only the hash filled in. -/
def ensureTokSnapshot (hash : String → String) (content : String) (p : Payload) : Payload :=
  if p.text_tokens = none || p.text_tokens = some [] then
    let toks := pySplit content
    { p with text_tokens := some toks, text_tokens_sha256 := some (sha256Toks hash toks) }
  else if ! pyTruthyStr p.text_tokens_sha256 then
    { p with text_tokens_sha256 := some (sha256Toks hash (p.text_tokens.getD [])) }
  else p

/-- Model of the replacement derivation of save_annotations
(texts.py lines 516-530). -/
def deriveReplacement (item : SaveItem) (p : Payload) : Option String :=
  let r0 := item.replacement
  let r1 :=
    if r0 = none then
      match p.after_tokens with
      | some after =>
        let candidate := pyStrip (joinSep " " (after.map (fun t => t.text)))
        if candidate = "" then none else some candidate
      | none => r0
    else r0
  if p.operation = some "noop" then pyStrOrNone r1 else r1

/-- Overwriting insertion into an association list (model of Python dict
assignment; lookups go through List.lookup). -/
def dictSet (m : List ((Int × Int) × Nat)) (k : Int × Int) (v : Nat) :
    List ((Int × Int) × Nat) :=
  m.filter (fun e => e.1 ≠ k) ++ [(k, v)]

/-- Resolve a row id against the store. -/
def findAnn (db : SaveDb) (i : Nat) : Option DbAnn :=
  db.anns.find? (fun a => a.id = i)

/-- In-place field mutation of one row (model of assigning to the attributes
of a mapped Python object). -/
def updateAnn (db : SaveDb) (i : Nat) (f : DbAnn → DbAnn) : SaveDb :=
  { db with anns := db.anns.map (fun a => if a.id = i then f a else a) }

/-- The per-request constants of the save_annotations loop. -/
structure SaveCtx where
  userId : Nat
  textId : Nat
  content : String
  textHash : String
  hash : String → String
  deletedIds : List Nat
  otherIds : List Nat
  otherBySpan : List ((Int × Int) × List Nat)

/-- The mutable state of the save_annotations loop: the store, the keys of
existing_by_id, the span map existing_by_span and the ids of the rows
appended to the saved list. -/
structure LoopState where
  db : SaveDb
  byIdKeys : List Nat
  bySpan : List ((Int × Int) × Nat)
  savedIds : List Nat
deriving Repr

/-- The deleted-item guard of the upsert loop (texts.py lines 493-494). -/
def itemDeleted (deletedIds : List Nat) (item : SaveItem) : Bool :=
  match item.id with
  | some i => i ≠ 0 && deletedIds.contains i
  | none => false

/-- The own-row match of the upsert loop (texts.py lines 546-550): by
explicit id within the author's own map, else by exact span. -/
def lookupOwn (st : LoopState) (item : SaveItem) : Option DbAnn :=
  let ownById : Option DbAnn :=
    match item.id with
    | some i => if i ≠ 0 && st.byIdKeys.contains i then findAnn st.db i else none
    | none => none
  match ownById with
  | some a => some a
  | none =>
    match List.lookup (item.start_token, item.end_token) st.bySpan with
    | some i => findAnn st.db i
    | none => none

/-- The other-author id lookup of the upsert loop (texts.py line 562). -/
def lookupOtherById (ctx : SaveCtx) (st : LoopState) (item : SaveItem) : Option DbAnn :=
  match item.id with
  | some i => if i ≠ 0 && ctx.otherIds.contains i then findAnn st.db i else none
  | none => none

/-- The other-author span candidates of the upsert loop (texts.py line 564),
ordered by ascending id. -/
def spanCandidates (ctx : SaveCtx) (st : LoopState) (item : SaveItem) : List DbAnn :=
  ((List.lookup (item.start_token, item.end_token) ctx.otherBySpan).getD []).filterMap
    (findAnn st.db)

/-- The field overwrite of an own-row upsert (texts.py lines 553-558). -/
def upsertFields (item : SaveItem) (replacement : Option String) (payload2 : Payload)
    (b : DbAnn) : DbAnn :=
  { b with start_token := item.start_token, end_token := item.end_token,
           replacement := replacement, payload := payload2,
           error_type_id := item.error_type_id, version := b.version + 1 }

/-- The field overwrite of an adoption, which also reassigns the author
(texts.py lines 580-586). -/
def adoptFields (userId : Nat) (item : SaveItem) (replacement : Option String)
    (payload2 : Payload) (b : DbAnn) : DbAnn :=
  { b with author_id := userId, start_token := item.start_token,
           end_token := item.end_token, replacement := replacement,
           payload := payload2, error_type_id := item.error_type_id,
           version := b.version + 1 }

/-- A freshly inserted row (texts.py lines 591-600; version takes the column
default 1 of entities.py line 133). -/
def mkNewAnn (ctx : SaveCtx) (nextId : Nat) (item : SaveItem)
    (replacement : Option String) (payload2 : Payload) : DbAnn :=
  { id := nextId, text_id := ctx.textId, author_id := ctx.userId,
    start_token := item.start_token, end_token := item.end_token,
    replacement := replacement, error_type_id := item.error_type_id,
    payload := payload2, version := 1 }

/-- Model of one iteration of the upsert loop of save_annotations
(texts.py lines 492-601). -/
def processItem (ctx : SaveCtx) (st : LoopState) (item : SaveItem) :
    Except SaveErr LoopState :=
  if itemDeleted ctx.deletedIds item then .ok st
  else
    match validatePayload item.payload with
    | some e => .error e
    | none =>
      if pyTruthyStr item.payload.text_sha256 &&
          item.payload.text_sha256 ≠ some ctx.textHash then .error .staleHash
      else
        let payload2 := ensureTokSnapshot ctx.hash ctx.content
          { item.payload with
            text_sha256 := some (pyOrStr item.payload.text_sha256 ctx.textHash) }
        let replacement := deriveReplacement item payload2
        match lookupOwn st item with
        | some a =>
          .ok { st with
                db := updateAnn st.db a.id (upsertFields item replacement payload2),
                savedIds := st.savedIds ++ [a.id] }
        | none =>
          let sig := payloadSignature payload2 replacement
          let otherById := lookupOtherById ctx st item
          let candidates := spanCandidates ctx st item
          let skipByCandidates :=
            otherById.isNone && ! candidates.isEmpty &&
              candidates.any (fun c => annMatches c sig replacement item.error_type_id)
          if skipByCandidates then .ok st
          else
            match (match otherById with
                   | some a => some a
                   | none => candidates.head?) with
            | some o =>
              if annMatches o sig replacement item.error_type_id then .ok st
              else
                .ok { db := updateAnn st.db o.id (adoptFields ctx.userId item replacement payload2),
                      byIdKeys := st.byIdKeys ++ [o.id],
                      bySpan := dictSet st.bySpan (item.start_token, item.end_token) o.id,
                      savedIds := st.savedIds ++ [o.id] }
            | none =>
              .ok { st with
                    db := { anns := st.db.anns ++ [mkNewAnn ctx st.db.nextId item replacement payload2],
                            versions := st.db.versions, nextId := st.db.nextId + 1 },
                    savedIds := st.savedIds ++ [st.db.nextId] }

/-- The upsert loop: the first failing item aborts the whole batch (the
route rolls the transaction back, so an error carries no state). -/
def processAll (ctx : SaveCtx) : LoopState → List SaveItem → Except SaveErr LoopState
  | st, [] => .ok st
  | st, item :: rest =>
    match processItem ctx st item with
    | .error e => .error e
    | .ok st' => processAll ctx st' rest

/-- Model of max of the versions with default 0 (texts.py line 381). -/
def maxVersion (l : List DbAnn) : Int :=
  match l.map (fun a => a.version) with
  | [] => 0
  | v :: vs => vs.foldl max v

/-- The other_by_span groups: ids of other authors' rows grouped by span,
each group sorted by ascending id (texts.py lines 486-490). -/
def mkOtherBySpan (l : List DbAnn) : List ((Int × Int) × List Nat) :=
  ((l.map (fun a => (a.start_token, a.end_token))).dedup).map (fun s =>
    (s, stableSortBy (fun x y => decide (x ≤ y))
      ((l.filter (fun a => decide ((a.start_token, a.end_token) = s))).map (fun a => a.id))))

/-- The store state drained by save_annotations after the upsert loop: the
AnnotationVersion snapshot rows for the saved ids (texts.py lines 603-622),
wrapped around the loop so that the first failing item aborts the batch. -/
def saveFinish (ctx : SaveCtx) (st0 : LoopState) (items : List SaveItem) :
    Except SaveErr (SaveDb × List Nat) :=
  match processAll ctx st0 items with
  | .error e => .error e
  | .ok st =>
    let versionRows := st.savedIds.filterMap (fun i =>
      match findAnn st.db i with
      | some a => some ({ annotation_id := i, version := a.version, snapshot := snapOf a } :
          AnnVersionRow)
      | none => none)
    .ok ({ st.db with versions := st.db.versions ++ versionRows }, st.savedIds)

/-- The post-deletion store of save_annotations (texts.py lines 459-469):
rows of the text whose id is listed are removed, any author. -/
def applyDeletions (db : SaveDb) (textId : Nat) (deletedIds : List Nat) : SaveDb :=
  if ! deletedIds.isEmpty then
    { db with anns := db.anns.filter (fun a =>
        ! (a.text_id = textId && deletedIds.contains a.id)) }
  else db

/-- The per-request constants of the upsert loop as save_annotations builds
them over the post-deletion store (texts.py lines 480-490). -/
def mkSaveCtx (hash : String → String) (content : String) (textId userId : Nat)
    (db1 : SaveDb) (deletedIds : List Nat) : SaveCtx :=
  { userId := userId, textId := textId, content := content,
    textHash := sha256Text hash content, hash := hash, deletedIds := deletedIds,
    otherIds := (db1.anns.filter (fun a => a.text_id = textId && a.author_id ≠ userId)).map
      (fun a => a.id),
    otherBySpan := mkOtherBySpan
      (db1.anns.filter (fun a => a.text_id = textId && a.author_id ≠ userId)) }

/-- The initial loop state of save_annotations: the refreshed own-row maps
over the post-deletion store (texts.py lines 471-479). -/
def mkLoopInit (textId userId : Nat) (db1 : SaveDb) : LoopState :=
  { db := db1,
    byIdKeys := (db1.anns.filter (fun a => a.text_id = textId && a.author_id = userId)).map
      (fun a => a.id),
    bySpan := (db1.anns.filter (fun a => a.text_id = textId && a.author_id = userId)).foldl
      (fun m a => dictSet m (a.start_token, a.end_token) a.id) [],
    savedIds := [] }

/-- Model of save_annotations (texts.py lines 335-653): stale-client guard,
deletions, map building, the upsert loop and the AnnotationVersion snapshot
rows.  Success returns the new store and the ids of the saved rows; an error
models the rolled-back transaction plus the HTTP failure. -/
def save_annotations (hash : String → String) (content : String) (textId userId : Nat)
    (db : SaveDb) (req : SaveRequest) : Except SaveErr (SaveDb × List Nat) :=
  let existing := db.anns.filter (fun a => a.text_id = textId && a.author_id = userId)
  let serverVersion := maxVersion existing
  if req.client_version ≠ 0 && req.client_version < serverVersion then .error .staleVersion
  else
    let db1 := applyDeletions db textId req.deleted_ids
    saveFinish (mkSaveCtx hash content textId userId db1 req.deleted_ids)
      (mkLoopInit textId userId db1) req.anns

/-!
Assignment, submission, flagging and export (texts.py lines 195-305, 656-810,
1309-1449) over a relational-store state.  Requests execute one at a time
against the store; the row-level locking used by the source
(with_for_update skip_locked) serializes them, so the model is a sequential
state transition per request.
-/

/-- One row of the texts table (entities.py TextSample). -/
structure TextRow where
  id : Nat
  category_id : Nat
  content : String
  required_annotations : Int
  state : String
  locked_by_id : Option Nat
  locked_at : Option Int
deriving Repr, DecidableEq

/-- One row of the annotation_tasks table (entities.py AnnotationTask);
updated_at is in the same integer time unit (minutes) as locked_at. -/
structure TaskRow where
  id : Nat
  text_id : Nat
  annotator_id : Nat
  status : String
  updated_at : Int
deriving Repr, DecidableEq

/-- One row of the skipped_texts table (entities.py SkippedText). -/
structure SkipRow where
  id : Nat
  text_id : Nat
  annotator_id : Nat
  reason : Option String
  flag_type : String
deriving Repr, DecidableEq

/-- One row of the cross_validation_results table
(entities.py CrossValidationResult); the result dict is a key-value list. -/
structure CvRow where
  text_id : Nat
  status : String
  result : List (String × String)
deriving Repr, DecidableEq

/-- One row of the error_types table (the fields export reads). -/
structure ErrorTypeRow where
  id : Int
  en_name : Option String
  tt_name : Option String
  category_en : Option String
  category_tt : Option String
deriving Repr, DecidableEq

/-- The store state for the assignment, submission, flagging and export
routes. -/
structure WorldDb where
  categories : List Nat
  texts : List TextRow
  tasks : List TaskRow
  skips : List SkipRow
  crossvals : List CvRow
  anns : List DbAnn
  annVersions : List AnnVersionRow
  error_types : List ErrorTypeRow
  nextTaskId : Nat
  nextAnnId : Nat
  nextSkipId : Nat
  nextErrorTypeId : Int
deriving Repr, DecidableEq

/-- LOCK_DURATION (texts.py line 51), in minutes. -/
def lockDuration : Int := 30

/-- Release of expired locks (texts.py lines 206-211). -/
def sweepExpiredLocks (db : WorldDb) (now : Int) : WorldDb :=
  { db with texts := db.texts.map (fun t =>
      match t.locked_at with
      | some ts =>
        if ts < now - lockDuration then { t with locked_by_id := none, locked_at := none }
        else t
      | none => t) }

/-- The terminal task statuses (texts.py line 219). -/
def isTerminalStatus (s : String) : Bool :=
  s = "submitted" || s = "skip" || s = "trash"

/-- Count of submitted tasks on a text (texts.py lines 254-260, 731-735). -/
def submittedCount (db : WorldDb) (textId : Nat) : Nat :=
  (db.tasks.filter (fun k => k.text_id = textId && k.status = "submitted")).length

/-- Whether any annotator holds a terminal task on the text
(texts.py lines 220). -/
def textIsTerminalForAny (db : WorldDb) (textId : Nat) : Bool :=
  db.tasks.any (fun k => k.text_id = textId && isTerminalStatus k.status)

/-- Whether the user has a SkippedText row for the text (texts.py line 213;
any flag type). -/
def userSkipped (db : WorldDb) (textId userId : Nat) : Bool :=
  db.skips.any (fun s => s.text_id = textId && s.annotator_id = userId)

/-- The filter of the existing-task re-assignment query
(texts.py lines 222-232). -/
def existingTaskEligible (db : WorldDb) (userId catId : Nat) (k : TaskRow) (t : TextRow) : Bool :=
  k.annotator_id = userId &&
  ! isTerminalStatus k.status &&
  k.text_id = t.id &&
  t.category_id = catId &&
  (t.state = "pending" || t.state = "in_annotation") &&
  ! userSkipped db k.text_id userId &&
  ! textIsTerminalForAny db t.id

/-- The where-clause of the fresh-text selection statement
(texts.py lines 262-279). -/
def schedulerEligible (db : WorldDb) (userId catId : Nat) (t : TextRow) : Bool :=
  t.category_id = catId &&
  (t.state = "pending" || t.state = "in_annotation") &&
  ! userSkipped db t.id userId &&
  ! db.tasks.any (fun k => k.text_id = t.id && k.annotator_id = userId) &&
  ! db.tasks.any (fun k => k.text_id = t.id && k.annotator_id = userId &&
      k.status = "submitted") &&
  ! textIsTerminalForAny db t.id &&
  (t.locked_by_id = none || t.locked_by_id = some userId) &&
  decide ((submittedCount db t.id : Int) < t.required_annotations)

/-- Descending order by (updated_at, id) (the order_by of texts.py lines 233,
1376, 1421): a task sorts before another when its key is at least as large. -/
def taskPairDescLe (a b : TaskRow) : Bool :=
  decide (b.updated_at < a.updated_at) ||
    (decide (a.updated_at = b.updated_at) && decide (b.id ≤ a.id))

/-- Model of get_next_text (texts.py lines 195-305): none models the 404
responses; some returns the new store and the assigned text id. -/
def getNextText (db0 : WorldDb) (catId userId : Nat) (now : Int) : Option (WorldDb × Nat) :=
  if ! db0.categories.contains catId then none
  else
    let db := sweepExpiredLocks db0 now
    let pairs := db.tasks.filterMap (fun k =>
      match db.texts.find? (fun t => t.id = k.text_id) with
      | some t => if existingTaskEligible db userId catId k t then some (k, t) else none
      | none => none)
    match (stableSortBy (fun a b => taskPairDescLe a.1 b.1) pairs).head? with
    | some (task, text) =>
      let db1 : WorldDb := { db with
        texts := db.texts.map (fun t =>
          if t.id = text.id then
            { t with locked_by_id := some userId, locked_at := some now,
                     state := "in_annotation" }
          else t),
        tasks := db.tasks.map (fun k =>
          if k.id = task.id && k.status ≠ "in_progress" then { k with status := "in_progress" }
          else k) }
      some (db1, text.id)
    | none =>
      let cands := db.texts.filter (schedulerEligible db userId catId)
      match (stableSortBy (fun a b => decide (a.id ≤ b.id)) cands).head? with
      | none => none
      | some text =>
        let db1 : WorldDb := { db with
          texts := db.texts.map (fun t =>
            if t.id = text.id then
              { t with locked_by_id := some userId, locked_at := some now,
                       state := "in_annotation" }
            else t) }
        let db2 : WorldDb :=
          if db1.tasks.any (fun k => k.text_id = text.id && k.annotator_id = userId) then db1
          else
            let newTask : TaskRow :=
              { id := db1.nextTaskId, text_id := text.id, annotator_id := userId,
                status := "in_progress", updated_at := now }
            { db1 with tasks := db1.tasks ++ [newTask], nextTaskId := db1.nextTaskId + 1 }
        some (db2, text.id)

/-- Model of _queue_cross_validation (texts.py lines 1460-1471). -/
def queueCrossValidation (db : WorldDb) (textId : Nat) : WorldDb :=
  if db.crossvals.any (fun c => c.text_id = textId) then
    { db with crossvals := db.crossvals.map (fun c =>
        if c.text_id = textId then { c with status := "pending", result := [] } else c) }
  else
    let newCv : CvRow := { text_id := textId, status := "pending", result := [] }
    { db with crossvals := db.crossvals ++ [newCv] }

/-- Lowercase an ASCII letter. -/
def asciiLowerChar (c : Char) : Char :=
  if 'A' ≤ c && c ≤ 'Z' then Char.ofNat (c.toNat + 32) else c

/-- Lowercase a string over the ASCII range (model of SQL lower). -/
def asciiLower (s : String) : String :=
  String.mk (s.data.map asciiLowerChar)

/-- Model of _get_or_create_noop_error_type (texts.py lines 64-75). -/
def getOrCreateNoopErrorType (db : WorldDb) : WorldDb × Int :=
  match db.error_types.find? (fun e =>
      match e.en_name with
      | some s => asciiLower s = "noop"
      | none => false) with
  | some e => (db, e.id)
  | none =>
    let newEt : ErrorTypeRow :=
      { id := db.nextErrorTypeId, en_name := some "noop", tt_name := none,
        category_en := none, category_tt := none }
    let db' : WorldDb :=
      { db with error_types := db.error_types ++ [newEt],
                nextErrorTypeId := db.nextErrorTypeId + 1 }
    (db', db.nextErrorTypeId)

/-- Step of submit_annotations (texts.py lines 666-676): mark the task of
(text, annotator) submitted, creating it if absent, stamping updated_at. -/
def upsertSubmittedTask (db0 : WorldDb) (textId userId : Nat) (now : Int) : WorldDb :=
  if db0.tasks.any (fun k => k.text_id = textId && k.annotator_id = userId) then
    { db0 with tasks := db0.tasks.map (fun k =>
        if k.text_id = textId && k.annotator_id = userId then
          { k with status := "submitted", updated_at := now }
        else k) }
  else
    let newTask : TaskRow :=
      { id := db0.nextTaskId, text_id := textId, annotator_id := userId,
        status := "submitted", updated_at := now }
    { db0 with tasks := db0.tasks ++ [newTask], nextTaskId := db0.nextTaskId + 1 }

/-- Step of submit_annotations (texts.py lines 678-679): clear the lock pair. -/
def clearTextLock (db : WorldDb) (textId : Nat) : WorldDb :=
  { db with texts := db.texts.map (fun t =>
      if t.id = textId then { t with locked_by_id := none, locked_at := none } else t) }

/-- Step of submit_annotations (texts.py lines 682-686): drop the submitting
annotator's skip and trash markers for the text. -/
def clearUserSkips (db : WorldDb) (textId userId : Nat) : WorldDb :=
  { db with skips := db.skips.filter (fun s =>
      ! (s.text_id = textId && s.annotator_id = userId)) }

/-- Step of submit_annotations (texts.py lines 688-728): insert the sentinel
noop row with its AnnotationVersion snapshot when the annotator has no rows. -/
def ensureNoopRow (hash : String → String) (db3 : WorldDb) (textId userId : Nat)
    (content : String) : WorldDb :=
  if db3.anns.any (fun a => a.text_id = textId && a.author_id = userId) then db3
  else
    let pair := getOrCreateNoopErrorType db3
    let toks := pySplit content
    let payload : Payload :=
      { operation := some "noop", before_tokens := some [], after_tokens := some [],
        text_tokens := some toks, text_tokens_sha256 := some (sha256Toks hash toks),
        text_sha256 := some (sha256Text hash content), source := some "manual" }
    let newAnn : DbAnn :=
      { id := pair.1.nextAnnId, text_id := textId, author_id := userId,
        start_token := -1, end_token := -1, replacement := none,
        error_type_id := pair.2, payload := payload, version := 1 }
    let newVersion : AnnVersionRow :=
      { annotation_id := newAnn.id, version := newAnn.version, snapshot := snapOf newAnn }
    { pair.1 with
      anns := pair.1.anns ++ [newAnn],
      nextAnnId := pair.1.nextAnnId + 1,
      annVersions := pair.1.annVersions ++ [newVersion] }

/-- Set the lifecycle state of a text row. -/
def setTextState (db : WorldDb) (textId : Nat) (newState : String) : WorldDb :=
  { db with texts := db.texts.map (fun t =>
      if t.id = textId then { t with state := newState } else t) }

/-- Model of submit_annotations (texts.py lines 656-743): none models the
404 on an unknown text. -/
def submit_annotations (hash : String → String) (db0 : WorldDb) (textId userId : Nat)
    (now : Int) : Option WorldDb :=
  match db0.texts.find? (fun t => t.id = textId) with
  | none => none
  | some t0 =>
    let db4 := ensureNoopRow hash
      (clearUserSkips (clearTextLock (upsertSubmittedTask db0 textId userId now) textId)
        textId userId)
      textId userId t0.content
    if (submittedCount db4 textId : Int) ≥ t0.required_annotations then
      some (queueCrossValidation (setTextState db4 textId "awaiting_cross_validation") textId)
    else
      some (setTextState db4 textId "pending")

/-- Step of _flag_text (texts.py lines 757-766): remove the opposite flag
rows of this user and text. -/
def removeOppositeFlags (db0 : WorldDb) (textId userId : Nat) (flagType : String) : WorldDb :=
  { db0 with skips := db0.skips.filter (fun s =>
      ! (s.text_id = textId && s.annotator_id = userId && s.flag_type ≠ flagType)) }

/-- Step of _flag_text (texts.py lines 768-787): update the existing flag row
or insert a fresh one. -/
def upsertFlagRow (db1 : WorldDb) (textId userId : Nat) (flagType : String)
    (reason : Option String) : WorldDb :=
  if db1.skips.any (fun s => s.text_id = textId && s.annotator_id = userId &&
      s.flag_type = flagType) then
    { db1 with skips := db1.skips.map (fun s =>
        if s.text_id = textId && s.annotator_id = userId && s.flag_type = flagType then
          { s with reason := reason, flag_type := flagType }
        else s) }
  else
    let newSkip : SkipRow :=
      { id := db1.nextSkipId, text_id := textId, annotator_id := userId,
        reason := reason, flag_type := flagType }
    { db1 with skips := db1.skips ++ [newSkip], nextSkipId := db1.nextSkipId + 1 }

/-- Step of _flag_text (texts.py lines 789-791): release the lock when the
flagging user holds it. -/
def clearLockIfHolder (db : WorldDb) (textId userId : Nat) : WorldDb :=
  { db with texts := db.texts.map (fun t =>
      if t.id = textId && t.locked_by_id = some userId then
        { t with locked_by_id := none, locked_at := none }
      else t) }

/-- Step of _flag_text (texts.py lines 793-800): flip the user's task status
to the flag type. -/
def setUserTaskFlag (db : WorldDb) (textId userId : Nat) (flagType : String)
    (now : Int) : WorldDb :=
  { db with tasks := db.tasks.map (fun k =>
      if k.text_id = textId && k.annotator_id = userId then
        { k with status := flagType, updated_at := now }
      else k) }

/-- Step of _flag_text (texts.py lines 802-808): unconditionally clear the
lock pair and set the trash or skipped state. -/
def flagFinalize (db : WorldDb) (textId : Nat) (flagType : String) : WorldDb :=
  let newState := if flagType = "trash" then "trash" else "skipped"
  { db with texts := db.texts.map (fun t =>
      if t.id = textId then
        { t with locked_by_id := none, locked_at := none, state := newState }
      else t) }

/-- Model of _flag_text (texts.py lines 746-810): none models the 404. -/
def flagText (db0 : WorldDb) (textId userId : Nat) (flagType : String)
    (reason : Option String) (now : Int) : Option WorldDb :=
  match db0.texts.find? (fun t => t.id = textId) with
  | none => none
  | some _ =>
    some (flagFinalize
      (setUserTaskFlag
        (clearLockIfHolder
          (upsertFlagRow (removeOppositeFlags db0 textId userId flagType)
            textId userId flagType reason)
          textId userId)
        textId userId flagType now)
      textId flagType)

/-!
Export (texts.py lines 946-974, 1309-1449).
-/

/-- Model of _resolve_label (texts.py lines 946-955): the error-type
relationship resolved against the error_types table, with the or-chain of
name fallbacks. -/
def resolveLabel (ets : List ErrorTypeRow) (a : DbAnn) : String :=
  match ets.find? (fun e => e.id = a.error_type_id) with
  | some e =>
    pyOrStr e.en_name (pyOrStr e.tt_name (pyOrStr e.category_en
      (pyOrStr e.category_tt "OTHER")))
  | none => "OTHER"

/-- The renderer view of a stored row (the duck-typed attribute access of
_apply_annotations applied to a database row). -/
def toView (a : DbAnn) : AnnView :=
  { id := some (a.id : Int), start_token := a.start_token, end_token := a.end_token,
    replacement := a.replacement, payload := a.payload }

/-- Model of the or-chain with trailing isinstance int check of
_annotation_to_edit: a stored zero is falsy, so it exports as null. -/
def pyOrNoneInt (x : Option Int) : Option Int :=
  match x with
  | some v => if v = 0 then none else some v
  | none => none

/-- One edit of an export record (texts.py lines 1309-1324). -/
structure ExportEdit where
  start_token : Int
  end_token : Int
  operation : String
  error_type : String
  replacement : Option String
  move_from : Option Int
  move_to : Option Int
  move_len : Option Int
deriving Repr, DecidableEq

/-- Model of _annotation_to_edit (texts.py lines 1309-1324). -/
def annToEdit (ets : List ErrorTypeRow) (a : DbAnn) : ExportEdit :=
  { start_token := a.start_token, end_token := a.end_token,
    operation := normalizeOperation (toView a),
    error_type := resolveLabel ets a,
    replacement := a.replacement,
    move_from := pyOrNoneInt a.payload.move_from,
    move_to := pyOrNoneInt a.payload.move_to,
    move_len := pyOrNoneInt a.payload.move_len }

/-- One exported line (texts.py lines 1327-1339). -/
structure ExportRecord where
  id : Nat
  source : String
  target : String
  edits : List ExportEdit
deriving Repr, DecidableEq

/-- The (start_token, end_token, id) ascending order of the edits list
(texts.py line 1333). -/
def dbAnnExportLe (a b : DbAnn) : Bool :=
  decide (a.start_token < b.start_token) ||
    (decide (a.start_token = b.start_token) &&
      (decide (a.end_token < b.end_token) ||
        (decide (a.end_token = b.end_token) &&
          decide (pyOrInt (a.id : Int) 0 ≤ pyOrInt (b.id : Int) 0))))

/-- Model of _build_export_record (texts.py lines 1327-1339). -/
def buildExportRecord (ets : List ErrorTypeRow) (t : TextRow) (rows : List DbAnn) :
    ExportRecord :=
  { id := t.id, source := t.content,
    target := renderCorrectedText t.content (rows.map toView),
    edits := (stableSortBy dbAnnExportLe rows).map (annToEdit ets) }

/-- Model of _fetch_annotations_for_tasks for one task (texts.py lines
1342-1359): the rows on the task's text authored by the task's annotator. -/
def annsForTask (db : WorldDb) (k : TaskRow) : List DbAnn :=
  db.anns.filter (fun a => a.text_id = k.text_id && a.author_id = k.annotator_id)

/-- The task filter shared by both export endpoints (texts.py lines
1368-1375, 1407-1419): status submitted, text exists and is neither trash
nor skipped, plus the optional category and time-window filters of the bulk
endpoint. -/
def exportTaskOk (db : WorldDb) (categories : List Nat) (start stop : Option Int)
    (k : TaskRow) : Bool :=
  (match db.texts.find? (fun t => t.id = k.text_id) with
   | some t =>
     k.status = "submitted" && t.state ≠ "trash" && t.state ≠ "skipped" &&
       (categories.isEmpty || categories.contains t.category_id)
   | none => false) &&
  (match start with
   | some s => decide (s ≤ k.updated_at)
   | none => true) &&
  (match stop with
   | some e => decide (k.updated_at ≤ e)
   | none => true)

/-- One step of the tasks_by_text grouping (texts.py lines 1426-1428):
Python dict setdefault plus append, insertion-ordered. -/
def addToGroup (gs : List (Nat × List TaskRow)) (k : TaskRow) : List (Nat × List TaskRow) :=
  if gs.any (fun g => g.1 = k.text_id) then
    gs.map (fun g => if g.1 = k.text_id then (g.1, g.2 ++ [k]) else g)
  else gs ++ [(k.text_id, [k])]

/-- The tasks_by_text grouping. -/
def groupByText (ks : List TaskRow) : List (Nat × List TaskRow) :=
  ks.foldl addToGroup []

/-- The per-text record choice shared by both export endpoints (texts.py
lines 1385-1392, 1435-1441): one record per annotator variant, the first
(most recently updated) chosen; the target-agreement test re-picks the same
first variant. -/
def chooseRecord (variants : List ExportRecord) : Option ExportRecord :=
  match variants with
  | [] => none
  | v :: _ =>
    let chosen := v
    some (if ((variants.map (fun r => r.target)).dedup.length = 1 && ! variants.isEmpty)
      then v else chosen)

/-- Model of export_submitted_texts (texts.py lines 1398-1449): one
newline-delimited record per text that has at least one submitted task. -/
def export_submitted_texts (db : WorldDb) (categories : List Nat)
    (start stop : Option Int) : List ExportRecord :=
  let tasks := stableSortBy taskPairDescLe
    (db.tasks.filter (exportTaskOk db categories start stop))
  (groupByText tasks).filterMap (fun g =>
    match db.texts.find? (fun t => t.id = g.1) with
    | none => none
    | some t => chooseRecord (g.2.map (fun k => buildExportRecord db.error_types t
        (annsForTask db k))))

/-- Model of export_single_text (texts.py lines 1362-1395): none models the
empty response. -/
def export_single_text (db : WorldDb) (textId : Nat) : Option ExportRecord :=
  let tasks := stableSortBy taskPairDescLe
    (db.tasks.filter (fun k => k.text_id = textId && exportTaskOk db [] none none k))
  match tasks with
  | [] => none
  | t0 :: _ =>
    match db.texts.find? (fun t => t.id = t0.text_id) with
    | none => none
    | some t => chooseRecord (tasks.map (fun k => buildExportRecord db.error_types t
        (annsForTask db k)))

/-!
Claims.
-/

/-- The single move of the claimed scenario: token at index 2 to index 0 with
move_len 1 (payload shaped as in backend tests). -/
def moveGammaFront : AnnView :=
  { id := some 1, start_token := 0, end_token := 0, replacement := none,
    payload := { operation := some "move",
                 after_tokens := some [{ id := some "m1", text := "gamma" }],
                 text_tokens := some ["alpha", "beta", "gamma"],
                 move_from := some 2, move_to := some 0, move_len := some 1 } }

/-- Claim C1 (code bug at the claimed input): rendering "alpha beta gamma"
with the single move of token 2 to index 0 (move_len 1) evaluates to
"gammaalpha beta" - the displaced first token keeps its stale
space_before false, so no space separates "gamma" from "alpha" and the
output does not start with "gamma alpha beta" as the claim (and the spec
scenario) require. -/
theorem c1_move_render_missing_space :
    renderCorrectedText "alpha beta gamma" [moveGammaFront] = "gammaalpha beta" ∧
    ("gamma alpha beta".data.isPrefixOf "gammaalpha beta".data) = false := by
  decide

theorem resolve_no_snapshot (source : String) (anns : List AnnView)
    (h : ∀ a ∈ anns, a.payload.text_tokens = none ∨ a.payload.text_tokens = some []) :
    resolveToksSnapshotForSource source anns = tokenizeToToks source := by
  unfold resolveToksSnapshotForSource
  have hfind : anns.find? (fun a =>
      match a.payload.text_tokens with
      | some l => ! l.isEmpty
      | none => false) = none := by
    rw [List.find?_eq_none]
    intro a ha
    rcases h a ha with h1 | h1 <;> simp [h1]
  rw [hfind]
  simp

theorem applyAnns_noop (toks : List Tok) (anns : List AnnView)
    (h : ∀ a ∈ anns, normalizeOperation a = "noop") :
    applyAnns toks anns = toks := by
  unfold applyAnns
  have h' : ∀ a ∈ stableSortBy annLe anns, normalizeOperation a = "noop" := fun a ha =>
    h a ((stableSortBy_perm annLe anns).mem_iff.mp ha)
  suffices hs : ∀ st : ApplyState,
      (∀ a ∈ stableSortBy annLe anns, normalizeOperation a = "noop") →
      (stableSortBy annLe anns).foldl applyOne st = st by
    rw [hs _ h']
  generalize stableSortBy annLe anns = l
  induction l with
  | nil => intro st _; rfl
  | cons a as ih =>
    intro st hall
    rw [List.foldl_cons]
    have ha : applyOne st a = st := by
      simp [applyOne, hall a (List.mem_cons_self a as)]
    rw [ha]
    exact ih st (fun b hb => hall b (List.mem_cons_of_mem a hb))

/-- The sentinel noop row that submit_annotations stores for an annotator
without edits, over the source "a, b\nc" (payload shaped as at texts.py
lines 694-713, with the whitespace-split token snapshot). -/
def noopSnapshotAnn : AnnView :=
  { id := some 1, start_token := -1, end_token := -1, replacement := none,
    payload := { operation := some "noop", before_tokens := some [],
                 after_tokens := some [], text_tokens := some ["a,", "b", "c"] } }

/-- Claim C2 (counterexample): the source "a, b\nc" is a fixed point of the
tokenize-then-detokenize pair and the single stored row is a noop operation,
yet rendering with it returns "a, b c\n", not the source: the whitespace-split
token snapshot in the noop payload replaces the token base while the line
breaks stay counted in tokenizer-token units. -/
theorem c2_noop_snapshot_counterexample :
    buildTextFromToksWithBreaks (tokenizeToToks "a, b\nc") (computeLineBreaks "a, b\nc")
      = "a, b\nc" ∧
    normalizeOperation noopSnapshotAnn = "noop" ∧
    renderCorrectedText "a, b\nc" [noopSnapshotAnn] = "a, b c\n" ∧
    ("a, b c\n" : String) ≠ "a, b\nc" := by
  decide

/-- Claim C2 (amended): for every source text that the tokenize-then-
detokenize pair maps to itself, rendering returns exactly the original source
when the annotation set is empty or contains only noop operations none of
which carries a text_tokens snapshot.  (The empty set satisfies the
hypothesis vacuously.) -/
theorem c2_render_noop_fixed_point (s : String) (anns : List AnnView)
    (hfix : buildTextFromToksWithBreaks (tokenizeToToks s) (computeLineBreaks s) = s)
    (hnoop : ∀ a ∈ anns, normalizeOperation a = "noop" ∧
      (a.payload.text_tokens = none ∨ a.payload.text_tokens = some [])) :
    renderCorrectedText s anns = s := by
  show buildTextFromToksWithBreaks (applyAnns (resolveToksSnapshotForSource s anns) anns)
    (computeLineBreaks s) = s
  rw [resolve_no_snapshot s anns (fun a ha => (hnoop a ha).2),
    applyAnns_noop _ _ (fun a ha => (hnoop a ha).1), hfix]

/-- A noop item carrying no token snapshot. -/
def plainNoopAnn : AnnView :=
  { id := some 1, start_token := -1, end_token := -1, replacement := none,
    payload := { operation := some "noop", before_tokens := some [],
                 after_tokens := some [] } }

/-- Witness for claim C2 at a concrete fixed-point source and a concrete
snapshot-free noop set. -/
theorem c2_render_noop_fixed_point_witness :
    buildTextFromToksWithBreaks (tokenizeToToks "alpha beta") (computeLineBreaks "alpha beta")
      = "alpha beta" ∧
    renderCorrectedText "alpha beta" [plainNoopAnn] = "alpha beta" :=
  ⟨by decide, c2_render_noop_fixed_point "alpha beta" [plainNoopAnn] (by decide) (by decide)⟩

theorem validatePayload_some (p : Payload) (e : SaveErr)
    (h : validatePayload p = some e) : e = .invalidOp ∨ e = .invalidOrigin := by
  simp only [validatePayload] at h
  split at h
  · left; exact (Option.some.inj h).symm
  · split at h
    · right; exact (Option.some.inj h).symm
    · cases h

theorem processItem_ne_staleVersion (ctx : SaveCtx) (st : LoopState) (item : SaveItem) :
    processItem ctx st item ≠ .error .staleVersion := by
  intro h
  simp only [processItem] at h
  split at h
  · simp at h
  · split at h
    · rename_i e heq
      rcases validatePayload_some _ _ heq with rfl | rfl <;> simp at h
    · (repeat' split at h) <;> simp at h

theorem processAll_ne_staleVersion (ctx : SaveCtx) (st : LoopState) (items : List SaveItem) :
    processAll ctx st items ≠ .error .staleVersion := by
  induction items generalizing st with
  | nil => intro h; simp [processAll] at h
  | cons item rest ih =>
    intro h
    unfold processAll at h
    split at h
    · rename_i e heq
      injection h with h'
      subst h'
      exact processItem_ne_staleVersion ctx st item heq
    · exact ih _ h

theorem saveFinish_ne_staleVersion (ctx : SaveCtx) (st0 : LoopState) (items : List SaveItem) :
    saveFinish ctx st0 items ≠ .error .staleVersion := by
  intro h
  unfold saveFinish at h
  split at h
  · rename_i e heq
    injection h with h'
    subst h'
    exact processAll_ne_staleVersion ctx st0 items heq
  · simp at h

/-- Claim C4: the stale-client guard of save_annotations rejects with the
409 stale-version conflict when the supplied client_version is nonzero and
strictly below the maximum version among the calling author's rows on the
text (the rejection happens before any row is touched: an error result
carries no store change); a client_version equal to that maximum, or equal
to zero, is never rejected by the stale-client guard. -/
theorem c4_stale_client_guard (hash : String → String) (content : String)
    (textId userId : Nat) (db : SaveDb) (req : SaveRequest) :
    (req.client_version ≠ 0 ∧
        req.client_version <
          maxVersion (db.anns.filter (fun a => a.text_id = textId && a.author_id = userId)) →
      save_annotations hash content textId userId db req = .error .staleVersion) ∧
    (req.client_version = 0 ∨
        req.client_version =
          maxVersion (db.anns.filter (fun a => a.text_id = textId && a.author_id = userId)) →
      save_annotations hash content textId userId db req ≠ .error .staleVersion) := by
  constructor
  · rintro ⟨h1, h2⟩
    simp only [save_annotations]
    split
    · rfl
    · rename_i hcond
      exact absurd (by simp [h1, h2]) hcond
  · intro hok hcontra
    simp only [save_annotations] at hcontra
    split at hcontra
    · rename_i hcond
      rcases hok with h | h
      · simp [h] at hcond
      · rw [h] at hcond
        simp at hcond
    · exact saveFinish_ne_staleVersion _ _ _ hcontra

/-- A stored row of the calling author at version 3, for the C4 witness. -/
def c4DemoRow : DbAnn :=
  { id := 5, text_id := 1, author_id := 1, start_token := 0, end_token := 0,
    replacement := none, error_type_id := 2, payload := {}, version := 3 }

/-- The one-row store of the C4 witness. -/
def c4DemoDb : SaveDb :=
  { anns := [c4DemoRow], versions := [], nextId := 6 }

/-- Witness for claim C4 at a concrete store: a stale client version is
rejected, an up-to-date one is not. -/
theorem c4_stale_client_guard_witness :
    save_annotations id "w" 1 1 c4DemoDb { anns := [], client_version := 2, deleted_ids := [] }
        = .error .staleVersion ∧
    save_annotations id "w" 1 1 c4DemoDb { anns := [], client_version := 3, deleted_ids := [] }
        ≠ .error .staleVersion :=
  ⟨(c4_stale_client_guard id "w" 1 1 c4DemoDb _).1 (by decide),
   (c4_stale_client_guard id "w" 1 1 c4DemoDb _).2 (Or.inr (by decide))⟩

/-- Claim C9: the token-snapshot defaulting applied by save_annotations to
every processed item (the block at texts.py lines 505-514, embedded as
ensureTokSnapshot and invoked by processItem): a payload lacking a nonempty
text_tokens list is populated with the whitespace-split words of the current
text content (Python str.split, not the tokenizer token sequence) and with
text_tokens_sha256 set to the hash of those words joined with U+241F; a
payload that has tokens but a falsy hash gets only text_tokens_sha256 filled
in, its snapshot left unchanged. -/
theorem c9_token_snapshot_defaults (hash : String → String) (content : String) (p : Payload) :
    ((p.text_tokens = none ∨ p.text_tokens = some []) →
      ensureTokSnapshot hash content p =
        { p with text_tokens := some (pySplit content),
                 text_tokens_sha256 := some (sha256Toks hash (pySplit content)) }) ∧
    (∀ l, p.text_tokens = some l → l ≠ [] → ¬ pyTruthyStr p.text_tokens_sha256 →
      ensureTokSnapshot hash content p =
        { p with text_tokens_sha256 := some (sha256Toks hash l) }) := by
  constructor
  · intro h
    unfold ensureTokSnapshot
    rcases h with h | h <;> simp [h]
  · intro l hl hne hfalsy
    unfold ensureTokSnapshot
    simp [hl, hne, hfalsy]

/-- A payload already carrying a snapshot but no snapshot hash. -/
def c9TokPayload : Payload := { text_tokens := some ["x"] }

/-- Witness for claim C9: a missing snapshot is filled with the split words
and their hash; a present snapshot only gets the hash filled in. -/
theorem c9_token_snapshot_defaults_witness :
    ensureTokSnapshot id "a b" {} =
      { ({} : Payload) with text_tokens := some ["a", "b"],
                            text_tokens_sha256 := some (sha256Toks id ["a", "b"]) } ∧
    ensureTokSnapshot id "a b" c9TokPayload =
      { c9TokPayload with text_tokens_sha256 := some (sha256Toks id ["x"]) } :=
  ⟨(c9_token_snapshot_defaults id "a b" {}).1 (Or.inl rfl),
   (c9_token_snapshot_defaults id "a b" c9TokPayload).2 ["x"] rfl (by decide) (by decide)⟩

/-- The C8 invariant: locked_by_id and locked_at are both null or both set. -/
def lockConsistent (t : TextRow) : Prop :=
  t.locked_by_id = none ↔ t.locked_at = none

theorem lockConsistent_map {l : List TextRow} {f : TextRow → TextRow}
    (hf : ∀ t, lockConsistent t → lockConsistent (f t))
    (h : ∀ t ∈ l, lockConsistent t) : ∀ t ∈ l.map f, lockConsistent t := by
  intro t ht
  rcases List.mem_map.mp ht with ⟨t0, ht0, rfl⟩
  exact hf t0 (h t0 ht0)

theorem sweep_locks_consistent (db : WorldDb) (now : Int)
    (h : ∀ t ∈ db.texts, lockConsistent t) :
    ∀ t ∈ (sweepExpiredLocks db now).texts, lockConsistent t := by
  unfold sweepExpiredLocks
  refine lockConsistent_map ?_ h
  intro t ht
  rcases hcase : t.locked_at with _ | ts <;> simp only [hcase]
  · exact ht
  · split
    · simp [lockConsistent]
    · exact ht

theorem clearTextLock_locks_consistent (db : WorldDb) (textId : Nat)
    (h : ∀ t ∈ db.texts, lockConsistent t) :
    ∀ t ∈ (clearTextLock db textId).texts, lockConsistent t := by
  unfold clearTextLock
  refine lockConsistent_map ?_ h
  intro t ht
  split
  · simp [lockConsistent]
  · exact ht

theorem setTextState_locks_consistent (db : WorldDb) (textId : Nat) (st : String)
    (h : ∀ t ∈ db.texts, lockConsistent t) :
    ∀ t ∈ (setTextState db textId st).texts, lockConsistent t := by
  unfold setTextState
  refine lockConsistent_map ?_ h
  intro t ht
  split
  · simpa [lockConsistent] using ht
  · exact ht

theorem upsertSubmittedTask_texts (db : WorldDb) (textId userId : Nat) (now : Int) :
    (upsertSubmittedTask db textId userId now).texts = db.texts := by
  unfold upsertSubmittedTask
  split <;> rfl

theorem clearUserSkips_texts (db : WorldDb) (textId userId : Nat) :
    (clearUserSkips db textId userId).texts = db.texts := rfl

theorem getOrCreateNoopErrorType_texts (db : WorldDb) :
    (getOrCreateNoopErrorType db).1.texts = db.texts := by
  unfold getOrCreateNoopErrorType
  split <;> rfl

theorem ensureNoopRow_texts (hash : String → String) (db : WorldDb) (textId userId : Nat)
    (content : String) :
    (ensureNoopRow hash db textId userId content).texts = db.texts := by
  unfold ensureNoopRow
  split
  · rfl
  · simp [getOrCreateNoopErrorType_texts]

theorem queueCrossValidation_texts (db : WorldDb) (textId : Nat) :
    (queueCrossValidation db textId).texts = db.texts := by
  unfold queueCrossValidation
  split <;> rfl

/-- Claim C8: every modelled operation that touches a text lock (the
expired-lock sweep, assignment and re-assignment through getNextText,
submission, and skip or trash flagging) preserves the invariant that
locked_by_id and locked_at are both null or both non-null on every text row. -/
theorem c8_lock_pair_consistency :
    (∀ (db : WorldDb) (now : Int), (∀ t ∈ db.texts, lockConsistent t) →
      ∀ t ∈ (sweepExpiredLocks db now).texts, lockConsistent t) ∧
    (∀ (db : WorldDb) (catId userId : Nat) (now : Int) (db' : WorldDb) (tid : Nat),
      (∀ t ∈ db.texts, lockConsistent t) →
      getNextText db catId userId now = some (db', tid) →
      ∀ t ∈ db'.texts, lockConsistent t) ∧
    (∀ (hash : String → String) (db : WorldDb) (textId userId : Nat) (now : Int)
        (db' : WorldDb),
      (∀ t ∈ db.texts, lockConsistent t) →
      submit_annotations hash db textId userId now = some db' →
      ∀ t ∈ db'.texts, lockConsistent t) ∧
    (∀ (db : WorldDb) (textId userId : Nat) (flagType : String) (reason : Option String)
        (now : Int) (db' : WorldDb),
      (∀ t ∈ db.texts, lockConsistent t) →
      flagText db textId userId flagType reason now = some db' →
      ∀ t ∈ db'.texts, lockConsistent t) := by
  refine ⟨sweep_locks_consistent, ?_, ?_, ?_⟩
  · intro db catId userId now db' tid h hres
    have hswept := sweep_locks_consistent db now h
    simp only [getNextText] at hres
    split at hres
    · cases hres
    · split at hres
      · rename_i pair heq
        injection hres with hres'
        rw [Prod.mk.injEq] at hres'
        obtain ⟨hdb, -⟩ := hres'
        subst hdb
        refine lockConsistent_map ?_ hswept
        intro t ht
        split
        · simp [lockConsistent]
        · exact ht
      · split at hres
        · cases hres
        · rename_i text heq2
          injection hres with hres'
          rw [Prod.mk.injEq] at hres'
          obtain ⟨hdb, -⟩ := hres'
          have hdb1 : ∀ t ∈ ((sweepExpiredLocks db now).texts.map (fun t =>
              if t.id = text.id then
                { t with locked_by_id := some userId, locked_at := some now,
                         state := "in_annotation" }
              else t)), lockConsistent t := by
            refine lockConsistent_map ?_ hswept
            intro t ht
            split
            · simp [lockConsistent]
            · exact ht
          subst hdb
          split
          · exact hdb1
          · exact hdb1
  · intro hash db textId userId now db' h hres
    simp only [submit_annotations] at hres
    split at hres
    · cases hres
    · rename_i t0 heq0
      have h4 : ∀ t ∈ (ensureNoopRow hash
          (clearUserSkips (clearTextLock (upsertSubmittedTask db textId userId now) textId)
            textId userId) textId userId t0.content).texts, lockConsistent t := by
        rw [ensureNoopRow_texts, clearUserSkips_texts]
        refine clearTextLock_locks_consistent _ _ ?_
        rw [upsertSubmittedTask_texts]
        exact h
      split at hres
      · injection hres with hres'
        subst hres'
        rw [queueCrossValidation_texts]
        exact setTextState_locks_consistent _ _ _ h4
      · injection hres with hres'
        subst hres'
        exact setTextState_locks_consistent _ _ _ h4
  · intro db textId userId flagType reason now db' h hres
    unfold flagText at hres
    split at hres
    · cases hres
    · injection hres with hres'
      subst hres'
      unfold flagFinalize
      refine lockConsistent_map ?_ ?_
      · intro t ht
        split
        · simp [lockConsistent]
        · exact ht
      · show ∀ t ∈ (setUserTaskFlag _ _ _ _ _).texts, lockConsistent t
        unfold setUserTaskFlag
        show ∀ t ∈ (clearLockIfHolder _ _ _).texts, lockConsistent t
        unfold clearLockIfHolder
        refine lockConsistent_map ?_ ?_
        · intro t ht
          split
          · simp [lockConsistent]
          · exact ht
        · show ∀ t ∈ (upsertFlagRow _ _ _ _ _).texts, lockConsistent t
          have hups : (upsertFlagRow (removeOppositeFlags db textId userId flagType)
              textId userId flagType reason).texts =
              (removeOppositeFlags db textId userId flagType).texts := by
            unfold upsertFlagRow
            split <;> rfl
          rw [hups]
          exact h

instance (t : TextRow) : Decidable (lockConsistent t) := by
  unfold lockConsistent
  infer_instance

/-- A locked text row whose lock is long expired, for the C8 witness. -/
def c8DemoText : TextRow :=
  { id := 1, category_id := 1, content := "w", required_annotations := 1,
    state := "pending", locked_by_id := some 7, locked_at := some 0 }

/-- The one-text store of the C8 witness. -/
def c8DemoWorld : WorldDb :=
  { categories := [1], texts := [c8DemoText], tasks := [], skips := [], crossvals := [],
    anns := [], annVersions := [], error_types := [], nextTaskId := 1, nextAnnId := 1,
    nextSkipId := 1, nextErrorTypeId := 1 }

/-- Witness for claim C8: the expired-lock sweep at a concrete store leaves
the swept row with a consistent lock pair. -/
theorem c8_lock_pair_consistency_witness :
    lockConsistent { c8DemoText with locked_by_id := none, locked_at := none } :=
  (c8_lock_pair_consistency.1 c8DemoWorld 100 (by decide)) _ (by decide)

theorem processAll_append_error (ctx : SaveCtx) (st : LoopState) (pre : List SaveItem)
    (item : SaveItem) (post : List SaveItem) (st₁ : LoopState) (e : SaveErr)
    (h1 : processAll ctx st pre = .ok st₁) (h2 : processItem ctx st₁ item = .error e) :
    processAll ctx st (pre ++ item :: post) = .error e := by
  induction pre generalizing st with
  | nil =>
    simp only [processAll] at h1
    injection h1 with h1'
    subst h1'
    simp [processAll, h2]
  | cons a pre ih =>
    unfold processAll at h1
    rw [List.cons_append]
    unfold processAll
    split at h1
    · cases h1
    · rename_i st2 heq
      exact ih st2 h1

theorem ensureTokSnapshot_text_sha256 (hash : String → String) (content : String)
    (p : Payload) : (ensureTokSnapshot hash content p).text_sha256 = p.text_sha256 := by
  unfold ensureTokSnapshot
  split
  · rfl
  · split <;> rfl

theorem pyOrStr_of_not_mismatch (h : Option String) (T : String)
    (hnm : ¬(pyTruthyStr h = true ∧ h ≠ some T)) : pyOrStr h T = T := by
  cases h with
  | none => rfl
  | some s =>
    by_cases hs : s = ""
    · simp [pyOrStr, hs]
    · have hsome : some s = some T := by
        by_contra hne
        exact hnm ⟨by simp [pyTruthyStr, hs], hne⟩
      injection hsome with h'
      simp [pyOrStr, hs, h']

theorem findAnn_mem (db : SaveDb) (i : Nat) (a : DbAnn) (h : findAnn db i = some a) :
    a ∈ db.anns ∧ a.id = i := by
  unfold findAnn at h
  refine ⟨List.mem_of_find?_eq_some h, ?_⟩
  have := List.find?_some h
  simpa using this

theorem updateAnn_mem (db : SaveDb) (i : Nat) (f : DbAnn → DbAnn) (a : DbAnn)
    (ha : a ∈ db.anns) (hid : a.id = i) : f a ∈ (updateAnn db i f).anns := by
  unfold updateAnn
  simp only
  refine List.mem_map.mpr ⟨a, ha, ?_⟩
  simp [hid]

theorem lookupOwn_mem (st : LoopState) (item : SaveItem) (a : DbAnn)
    (h : lookupOwn st item = some a) : a ∈ st.db.anns := by
  simp only [lookupOwn] at h
  split at h
  · rename_i a' heq
    injection h with h'
    subst h'
    split at heq
    · split at heq
      · exact (findAnn_mem _ _ _ heq).1
      · cases heq
    · cases heq
  · split at h
    · exact (findAnn_mem _ _ _ h).1
    · cases h

theorem otherPick_mem (ctx : SaveCtx) (st : LoopState) (item : SaveItem) (o : DbAnn)
    (h : (match lookupOtherById ctx st item with
          | some a => some a
          | none => (spanCandidates ctx st item).head?) = some o) : o ∈ st.db.anns := by
  split at h
  · rename_i a heq
    injection h with h'
    subst h'
    simp only [lookupOtherById] at heq
    split at heq
    · split at heq
      · exact (findAnn_mem _ _ _ heq).1
      · cases heq
    · cases heq
  · have hmem := List.mem_of_mem_head? h
    simp only [spanCandidates] at hmem
    rcases List.mem_filterMap.mp hmem with ⟨i, _, hfind⟩
    exact (findAnn_mem _ _ _ hfind).1

/-- Claim C5: the per-item text-hash guard of save_annotations.  First, an
item whose payload carries a truthy text_sha256 different from the hash of
the current text content makes its processing step fail with the 409
stale-hash conflict; second, through error propagation the whole save fails
with that conflict (and, the model returning no store on error, no row
change survives); third, an item whose text_sha256 is absent or matches is
never rejected by the hash guard, and when its step saves a row that row's
payload carries exactly the server-computed hash. -/
theorem c5_text_hash_guard :
    (∀ (ctx : SaveCtx) (st : LoopState) (item : SaveItem),
      itemDeleted ctx.deletedIds item = false →
      validatePayload item.payload = none →
      pyTruthyStr item.payload.text_sha256 = true →
      item.payload.text_sha256 ≠ some ctx.textHash →
      processItem ctx st item = .error .staleHash) ∧
    (∀ (hash : String → String) (content : String) (textId userId : Nat) (db : SaveDb)
        (req : SaveRequest) (pre post : List SaveItem) (item : SaveItem) (st₁ : LoopState),
      req.anns = pre ++ item :: post →
      (req.client_version ≠ 0 && req.client_version <
        maxVersion (db.anns.filter (fun a => a.text_id = textId && a.author_id = userId)))
        = false →
      processAll (mkSaveCtx hash content textId userId (applyDeletions db textId req.deleted_ids)
          req.deleted_ids)
        (mkLoopInit textId userId (applyDeletions db textId req.deleted_ids)) pre = .ok st₁ →
      itemDeleted req.deleted_ids item = false →
      validatePayload item.payload = none →
      pyTruthyStr item.payload.text_sha256 = true →
      item.payload.text_sha256 ≠ some (sha256Text hash content) →
      save_annotations hash content textId userId db req = .error .staleHash) ∧
    (∀ (ctx : SaveCtx) (st : LoopState) (item : SaveItem),
      ¬(pyTruthyStr item.payload.text_sha256 = true ∧
          item.payload.text_sha256 ≠ some ctx.textHash) →
      processItem ctx st item ≠ .error .staleHash ∧
      (∀ st', processItem ctx st item = .ok st' →
        st' = st ∨ ∃ i, st'.savedIds = st.savedIds ++ [i] ∧
          ∃ row ∈ st'.db.anns, row.id = i ∧
            row.payload.text_sha256 = some ctx.textHash)) := by
  have hitem : ∀ (ctx : SaveCtx) (st : LoopState) (item : SaveItem),
      itemDeleted ctx.deletedIds item = false →
      validatePayload item.payload = none →
      pyTruthyStr item.payload.text_sha256 = true →
      item.payload.text_sha256 ≠ some ctx.textHash →
      processItem ctx st item = .error .staleHash := by
    intro ctx st item hskip hvalid htruthy hneq
    simp only [processItem, hskip, hvalid]
    simp [htruthy, hneq]
  refine ⟨hitem, ?_, ?_⟩
  · intro hash content textId userId db req pre post item st₁ hreq hguard hpre hskip hvalid
      htruthy hneq
    simp only [save_annotations, hguard]
    simp only [Bool.false_eq_true, if_false]
    rw [hreq]
    unfold saveFinish
    rw [processAll_append_error _ _ pre item post st₁ .staleHash hpre
      (hitem _ st₁ item hskip hvalid htruthy hneq)]
  · intro ctx st item hnm
    constructor
    · intro habs
      simp only [processItem] at habs
      split at habs
      · simp at habs
      · split at habs
        · rename_i e heq
          rcases validatePayload_some _ _ heq with rfl | rfl <;> simp at habs
        · split at habs
          · rename_i htrue
            rcases Bool.and_eq_true_iff.mp htrue with ⟨h1, h2⟩
            exact hnm ⟨h1, of_decide_eq_true h2⟩
          · (repeat' split at habs) <;> simp at habs
    · intro st' hok
      simp only [processItem] at hok
      split at hok
      · injection hok with h'
        exact Or.inl h'.symm
      · split at hok
        · cases hok
        · split at hok
          · cases hok
          · split at hok
            · rename_i a heq
              injection hok with h'
              subst h'
              right
              refine ⟨a.id, rfl, ?_⟩
              refine ⟨upsertFields item _ _ a,
                updateAnn_mem _ _ _ _ (lookupOwn_mem _ _ _ heq) rfl, rfl, ?_⟩
              simp [upsertFields, ensureTokSnapshot_text_sha256,
                pyOrStr_of_not_mismatch _ _ hnm]
            · split at hok
              · injection hok with h'
                exact Or.inl h'.symm
              · split at hok
                · rename_i o heq
                  split at hok
                  · injection hok with h'
                    exact Or.inl h'.symm
                  · injection hok with h'
                    subst h'
                    right
                    refine ⟨o.id, rfl, ?_⟩
                    refine ⟨adoptFields ctx.userId item _ _ o,
                      updateAnn_mem _ _ _ _ (otherPick_mem _ _ _ _ heq) rfl, rfl, ?_⟩
                    simp [adoptFields, ensureTokSnapshot_text_sha256,
                      pyOrStr_of_not_mismatch _ _ hnm]
                · injection hok with h'
                  subst h'
                  right
                  refine ⟨st.db.nextId, rfl, ?_⟩
                  refine ⟨_, List.mem_append.mpr (Or.inr (List.mem_singleton.mpr rfl)),
                    rfl, ?_⟩
                  simp [mkNewAnn, ensureTokSnapshot_text_sha256,
                    pyOrStr_of_not_mismatch _ _ hnm]

/-- An item whose payload carries a stale text hash, for the C5 witness. -/
def c5BadItem : SaveItem :=
  { id := none, start_token := 0, end_token := 0, replacement := none, error_type_id := 2,
    payload := { operation := some "replace", text_sha256 := some "BAD" } }

/-- The save request of the C5 witness. -/
def c5BadReq : SaveRequest :=
  { anns := [c5BadItem], client_version := 0, deleted_ids := [] }

/-- The empty store of the C5 witness. -/
def c5EmptyDb : SaveDb := { anns := [], versions := [], nextId := 1 }

/-- Witness for claim C5: a save whose single item carries a mismatching
text hash fails whole with the stale-hash conflict. -/
theorem c5_text_hash_guard_witness :
    save_annotations id "w" 1 1 c5EmptyDb c5BadReq = .error .staleHash :=
  c5_text_hash_guard.2.1 id "w" 1 1 c5EmptyDb c5BadReq [] [] c5BadItem _ rfl (by decide)
    rfl (by decide) (by decide) (by decide) (by decide)

/-- Another author's stored row at span (5, 6), for the C6 counterexample. -/
def c6OtherRow : DbAnn :=
  { id := 10, text_id := 1, author_id := 2, start_token := 5, end_token := 6,
    replacement := some "x", error_type_id := 3,
    payload := { operation := some "replace", before_tokens := some ["t1"],
                 after_tokens := some [{ id := some "a", text := "x" }],
                 text_tokens := some ["w"] }, version := 1 }

/-- The store of the C6 counterexample: user 1 owns nothing. -/
def c6Db : SaveDb := { anns := [c6OtherRow], versions := [], nextId := 11 }

/-- The incoming item of the C6 counterexample: its id names the other
author's row 10, but its span (0, 0) is occupied by nobody. -/
def c6Item : SaveItem :=
  { id := some 10, start_token := 0, end_token := 0, replacement := some "y",
    error_type_id := 4,
    payload := { operation := some "replace", before_tokens := some ["t0"],
                 after_tokens := some [{ id := some "b", text := "y" }] } }

/-- Claim C6 (counterexample): the incoming item matches none of the calling
author's rows (the author owns none) and no other-author row occupies its
span (0, 0), so the claim requires a brand-new row to be inserted; instead
the save leaves the row count and the id sequence unchanged and reassigns
the other author's row 10 (matched through its id, a path the claim omits)
to the calling author. -/
theorem c6_other_id_adoption_counterexample :
    (∀ a ∈ c6Db.anns, a.author_id ≠ 1) ∧
    (∀ a ∈ c6Db.anns, a.author_id ≠ 1 →
      (a.start_token, a.end_token) ≠ (c6Item.start_token, c6Item.end_token)) ∧
    (∃ r, save_annotations id "w u" 1 1 c6Db { anns := [c6Item] } = .ok r ∧
      r.1.anns.length = c6Db.anns.length ∧
      r.1.nextId = c6Db.nextId ∧
      ∃ row ∈ r.1.anns, row.id = 10 ∧ row.author_id = 1 ∧ row.version = 2) := by
  refine ⟨by decide, by decide, ⟨_, rfl, ?_⟩⟩
  refine ⟨by decide, by decide, ?_⟩
  decide

theorem processItem_cross_reduce (ctx : SaveCtx) (st : LoopState) (item : SaveItem)
    (payload2 : Payload) (replacement : Option String) (sig : PaySig)
    (candidates : List DbAnn)
    (hp2 : payload2 = ensureTokSnapshot ctx.hash ctx.content
      { item.payload with text_sha256 := some (pyOrStr item.payload.text_sha256 ctx.textHash) })
    (hrep : replacement = deriveReplacement item payload2)
    (hsig : sig = payloadSignature payload2 replacement)
    (hcand : candidates = spanCandidates ctx st item)
    (hskip : itemDeleted ctx.deletedIds item = false)
    (hvalid : validatePayload item.payload = none)
    (hhash : (pyTruthyStr item.payload.text_sha256 &&
      item.payload.text_sha256 ≠ some ctx.textHash) = false)
    (hown : lookupOwn st item = none)
    (hOtherId : lookupOtherById ctx st item = none) :
    processItem ctx st item =
      (if ! candidates.isEmpty &&
          candidates.any (fun c => annMatches c sig replacement item.error_type_id) then
        .ok st
      else
        match candidates.head? with
        | some o =>
          if annMatches o sig replacement item.error_type_id then .ok st
          else .ok { db := updateAnn st.db o.id (adoptFields ctx.userId item replacement payload2),
                     byIdKeys := st.byIdKeys ++ [o.id],
                     bySpan := dictSet st.bySpan (item.start_token, item.end_token) o.id,
                     savedIds := st.savedIds ++ [o.id] }
        | none =>
          .ok { st with
                db := { anns := st.db.anns ++ [mkNewAnn ctx st.db.nextId item replacement payload2],
                        versions := st.db.versions, nextId := st.db.nextId + 1 },
                savedIds := st.savedIds ++ [st.db.nextId] }) := by
  subst hp2
  subst hrep
  subst hsig
  subst hcand
  simp only [processItem, hskip, hvalid, hown, hOtherId, hhash, Bool.false_eq_true,
    if_false, Option.isNone_none, Bool.true_and]

/-- Claim C6 (amended with the id-based proviso the code adds): in
save_annotations, for an item that survives the deleted-ids and validation
guards, matches none of the calling author's rows by id or span, and whose
id also names no other author's row, the cross-author span merge behaves as
claimed: a content-identical candidate at the same span makes the item a
no-op with the whole loop state (every other author's row included)
unchanged; a non-identical occupied span adopts the first (lowest-id)
candidate, reassigning its author to the caller, overwriting its fields from
the item and bumping its version by one; an unoccupied span inserts a
brand-new row. -/
theorem c6_cross_author_span_merge (ctx : SaveCtx) (st : LoopState) (item : SaveItem)
    (payload2 : Payload) (replacement : Option String) (sig : PaySig)
    (candidates : List DbAnn)
    (hp2 : payload2 = ensureTokSnapshot ctx.hash ctx.content
      { item.payload with text_sha256 := some (pyOrStr item.payload.text_sha256 ctx.textHash) })
    (hrep : replacement = deriveReplacement item payload2)
    (hsig : sig = payloadSignature payload2 replacement)
    (hcand : candidates = spanCandidates ctx st item)
    (hskip : itemDeleted ctx.deletedIds item = false)
    (hvalid : validatePayload item.payload = none)
    (hhash : (pyTruthyStr item.payload.text_sha256 &&
      item.payload.text_sha256 ≠ some ctx.textHash) = false)
    (hown : lookupOwn st item = none)
    (hOtherId : lookupOtherById ctx st item = none) :
    ((∃ c ∈ candidates, annMatches c sig replacement item.error_type_id) →
      processItem ctx st item = .ok st) ∧
    (∀ o rest, candidates = o :: rest →
      (∀ c ∈ candidates, ¬ annMatches c sig replacement item.error_type_id) →
      processItem ctx st item = .ok
        { db := updateAnn st.db o.id (adoptFields ctx.userId item replacement payload2),
          byIdKeys := st.byIdKeys ++ [o.id],
          bySpan := dictSet st.bySpan (item.start_token, item.end_token) o.id,
          savedIds := st.savedIds ++ [o.id] }) ∧
    (candidates = [] →
      processItem ctx st item = .ok
        { st with
          db := { anns := st.db.anns ++ [mkNewAnn ctx st.db.nextId item replacement payload2],
                  versions := st.db.versions, nextId := st.db.nextId + 1 },
          savedIds := st.savedIds ++ [st.db.nextId] }) := by
  rw [processItem_cross_reduce ctx st item payload2 replacement sig candidates hp2 hrep hsig
    hcand hskip hvalid hhash hown hOtherId]
  refine ⟨?_, ?_, ?_⟩
  · rintro ⟨c, hc, hmatch⟩
    have hany : candidates.any (fun c => annMatches c sig replacement item.error_type_id)
        = true := List.any_eq_true.mpr ⟨c, hc, hmatch⟩
    have hne : candidates.isEmpty = false := by
      cases hcc : candidates with
      | nil => rw [hcc] at hc; cases hc
      | cons x xs => rfl
    simp [hne, hany]
  · intro o rest hcons hall
    subst hcons
    have hany : (o :: rest).any (fun c => annMatches c sig replacement item.error_type_id)
        = false := by
      rw [List.any_eq_false]
      intro c hc
      simpa using hall c hc
    have hmo : annMatches o sig replacement item.error_type_id = false := by
      have := hall o (List.mem_cons_self o rest)
      revert this
      cases annMatches o sig replacement item.error_type_id <;> simp
    simp [hany, hmo]
  · intro hnil
    subst hnil
    simp

/-- The empty store of the C6 witness. -/
def c6WDb : SaveDb := { anns := [], versions := [], nextId := 1 }

/-- The loop context of the C6 witness. -/
def c6WCtx : SaveCtx := mkSaveCtx id "w" 1 1 c6WDb []

/-- The initial loop state of the C6 witness. -/
def c6WSt : LoopState := mkLoopInit 1 1 c6WDb

/-- The incoming item of the C6 witness. -/
def c6WItem : SaveItem :=
  { id := none, start_token := 0, end_token := 0, replacement := some "y",
    error_type_id := 2, payload := { operation := some "replace" } }

/-- The processed payload of the C6 witness item. -/
def c6WPayload2 : Payload :=
  ensureTokSnapshot c6WCtx.hash c6WCtx.content
    { c6WItem.payload with
      text_sha256 := some (pyOrStr c6WItem.payload.text_sha256 c6WCtx.textHash) }

/-- Witness for claim C6 at a concrete unoccupied span: the item inserts a
brand-new row. -/
theorem c6_cross_author_span_merge_witness :
    processItem c6WCtx c6WSt c6WItem = .ok
      { c6WSt with
        db := { anns := c6WSt.db.anns ++ [mkNewAnn c6WCtx c6WSt.db.nextId c6WItem (deriveReplacement c6WItem c6WPayload2) c6WPayload2],
                versions := c6WSt.db.versions, nextId := c6WSt.db.nextId + 1 },
        savedIds := c6WSt.savedIds ++ [c6WSt.db.nextId] } :=
  ((c6_cross_author_span_merge c6WCtx c6WSt c6WItem c6WPayload2
      (deriveReplacement c6WItem c6WPayload2)
      (payloadSignature c6WPayload2 (deriveReplacement c6WItem c6WPayload2))
      (spanCandidates c6WCtx c6WSt c6WItem) rfl rfl rfl rfl (by decide) (by decide)
      (by decide) (by decide) (by decide)).2.2) (by decide)

theorem queueCrossValidation_tasks (db : WorldDb) (textId : Nat) :
    (queueCrossValidation db textId).tasks = db.tasks := by
  unfold queueCrossValidation
  split <;> rfl

theorem setTextState_tasks (db : WorldDb) (textId : Nat) (s : String) :
    (setTextState db textId s).tasks = db.tasks := rfl

theorem setTextState_state (db : WorldDb) (textId : Nat) (s : String) :
    ∀ t ∈ (setTextState db textId s).texts, t.id = textId → t.state = s := by
  intro t ht hid
  unfold setTextState at ht
  rcases List.mem_map.mp ht with ⟨t0, _, rfl⟩
  by_cases hc : t0.id = textId
  · simp [hc]
  · rw [if_neg hc] at hid ⊢
    exact absurd hid hc

theorem queueCrossValidation_pending (db : WorldDb) (textId : Nat) :
    ∃ c ∈ (queueCrossValidation db textId).crossvals,
      c.text_id = textId ∧ c.status = "pending" ∧ c.result = [] := by
  unfold queueCrossValidation
  split
  · rename_i hany
    rcases List.any_eq_true.mp hany with ⟨c0, hc0, hp⟩
    refine ⟨{ c0 with status := "pending", result := [] }, ?_, ?_, rfl, rfl⟩
    · simp only
      refine List.mem_map.mpr ⟨c0, hc0, ?_⟩
      rw [if_pos (of_decide_eq_true hp)]
    · simpa using of_decide_eq_true hp
  · refine ⟨{ text_id := textId, status := "pending", result := [] }, ?_, rfl, rfl, rfl⟩
    simp

theorem sweep_id_state (db : WorldDb) (now : Int) :
    ∀ t ∈ (sweepExpiredLocks db now).texts,
      ∃ t0 ∈ db.texts, t.id = t0.id ∧ t.state = t0.state := by
  intro t ht
  unfold sweepExpiredLocks at ht
  rcases List.mem_map.mp ht with ⟨t0, ht0, rfl⟩
  refine ⟨t0, ht0, ?_⟩
  rcases hcase : t0.locked_at with _ | ts
  · exact ⟨rfl, rfl⟩
  · dsimp only
    split
    · exact ⟨rfl, rfl⟩
    · exact ⟨rfl, rfl⟩

theorem getNextText_target_pending (db : WorldDb) (catId userId : Nat) (now : Int)
    (db'' : WorldDb) (tid : Nat)
    (hres : getNextText db catId userId now = some (db'', tid)) :
    ∃ t ∈ (sweepExpiredLocks db now).texts, t.id = tid ∧
      (t.state = "pending" ∨ t.state = "in_annotation") := by
  simp only [getNextText] at hres
  split at hres
  · cases hres
  · split at hres
    · rename_i task text heq
      injection hres with hres'
      rw [Prod.mk.injEq] at hres'
      obtain ⟨-, htid⟩ := hres'
      have hmem := List.mem_of_mem_head? heq
      have hmem2 := (stableSortBy_perm _ _).mem_iff.mp hmem
      rcases List.mem_filterMap.mp hmem2 with ⟨k, -, hk⟩
      split at hk
      · rename_i t hfind
        split at hk
        · rename_i helig
          injection hk with hk'
          rw [Prod.mk.injEq] at hk'
          obtain ⟨-, hteq⟩ := hk'
          subst hteq
          refine ⟨t, List.mem_of_find?_eq_some hfind, htid, ?_⟩
          simp only [existingTaskEligible, Bool.and_eq_true, and_assoc] at helig
          obtain ⟨-, -, -, -, hstate, -, -⟩ := helig
          simpa using hstate
        · cases hk
      · cases hk
    · split at hres
      · cases hres
      · rename_i text heq2
        injection hres with hres'
        rw [Prod.mk.injEq] at hres'
        obtain ⟨-, htid⟩ := hres'
        have hmem := List.mem_of_mem_head? heq2
        have hmem2 := (stableSortBy_perm _ _).mem_iff.mp hmem
        rcases List.mem_filter.mp hmem2 with ⟨hmem3, helig⟩
        refine ⟨text, hmem3, htid, ?_⟩
        simp only [schedulerEligible, Bool.and_eq_true, and_assoc] at helig
        obtain ⟨-, hstate, -, -, -, -, -, -⟩ := helig
        simpa using hstate

/-- C7: after every successful submit of a text, if the count of submitted
tasks on the text reaches the required_annotations threshold then every row
of that text carries state awaiting_cross_validation, a pending
cross-validation row with empty result exists for the text, and the
scheduler never again returns that text; otherwise every row of the text
returns to state pending. -/
theorem c7_submit_threshold (hash : String → String) (db : WorldDb)
    (textId userId : Nat) (now : Int) (t0 : TextRow) (db' : WorldDb)
    (ht : db.texts.find? (fun t => t.id = textId) = some t0)
    (hsub : submit_annotations hash db textId userId now = some db') :
    ((submittedCount db' textId : Int) ≥ t0.required_annotations →
      (∀ t ∈ db'.texts, t.id = textId → t.state = "awaiting_cross_validation") ∧
      (∃ c ∈ db'.crossvals, c.text_id = textId ∧ c.status = "pending" ∧ c.result = []) ∧
      (∀ catId uid nowQ res, getNextText db' catId uid nowQ = some res → res.2 ≠ textId)) ∧
    ((submittedCount db' textId : Int) < t0.required_annotations →
      ∀ t ∈ db'.texts, t.id = textId → t.state = "pending") := by
  simp only [submit_annotations, ht] at hsub
  split at hsub
  · rename_i hge
    injection hsub with hsub'
    subst hsub'
    have hcnt : submittedCount
        (queueCrossValidation (setTextState
          (ensureNoopRow hash
            (clearUserSkips (clearTextLock (upsertSubmittedTask db textId userId now) textId)
              textId userId) textId userId t0.content)
          textId "awaiting_cross_validation") textId) textId =
        submittedCount
          (ensureNoopRow hash
            (clearUserSkips (clearTextLock (upsertSubmittedTask db textId userId now) textId)
              textId userId) textId userId t0.content) textId := by
      unfold submittedCount
      rw [queueCrossValidation_tasks, setTextState_tasks]
    have hstates : ∀ t ∈ (queueCrossValidation (setTextState
        (ensureNoopRow hash
          (clearUserSkips (clearTextLock (upsertSubmittedTask db textId userId now) textId)
            textId userId) textId userId t0.content)
        textId "awaiting_cross_validation") textId).texts,
        t.id = textId → t.state = "awaiting_cross_validation" := by
      rw [queueCrossValidation_texts]
      exact setTextState_state _ _ _
    refine ⟨fun _ => ⟨hstates, queueCrossValidation_pending _ _, ?_⟩, fun hlt => ?_⟩
    · intro catId uid nowQ res hres hne
      obtain ⟨dbQ, tid⟩ := res
      rcases getNextText_target_pending _ catId uid nowQ dbQ tid hres with
        ⟨tX, hmemX, hidX, hstX⟩
      rcases sweep_id_state _ nowQ tX hmemX with ⟨tY, hY, hid2, hst2⟩
      have hYid : tY.id = textId := by rw [← hid2, hidX]; exact hne
      have := hstates tY hY hYid
      rw [← hst2] at this
      rcases hstX with h | h <;> rw [h] at this <;> exact absurd this (by decide)
    · rw [hcnt] at hlt
      exact absurd hge (by omega)
  · rename_i hge
    injection hsub with hsub'
    subst hsub'
    have hcnt : submittedCount (setTextState
        (ensureNoopRow hash
          (clearUserSkips (clearTextLock (upsertSubmittedTask db textId userId now) textId)
            textId userId) textId userId t0.content)
        textId "pending") textId =
        submittedCount
          (ensureNoopRow hash
            (clearUserSkips (clearTextLock (upsertSubmittedTask db textId userId now) textId)
              textId userId) textId userId t0.content) textId := by
      unfold submittedCount
      rw [setTextState_tasks]
    refine ⟨fun hge2 => ?_, fun _ => setTextState_state _ _ _⟩
    rw [hcnt] at hge2
    exact absurd hge2 hge

/-- Demo text for the submit-threshold witness. -/
def c7WText : TextRow :=
  { id := 1, category_id := 2, content := "ab", required_annotations := 1,
    state := "in_annotation", locked_by_id := some 5, locked_at := some 0 }

/-- Demo store for the submit-threshold witness. -/
def c7WDb : WorldDb :=
  { categories := [2], texts := [c7WText], tasks := [], skips := [], crossvals := [],
    anns := [], annVersions := [], error_types := [], nextTaskId := 1, nextAnnId := 1,
    nextSkipId := 1, nextErrorTypeId := 1 }

/-- Witness: the submit-threshold theorem applied to a one-text store whose
single required annotation is supplied by the submitting user. -/
theorem c7_submit_threshold_witness :
    ∃ db', submit_annotations (fun s => s) c7WDb 1 5 0 = some db' ∧
      (((submittedCount db' 1 : Int) ≥ c7WText.required_annotations →
        (∀ t ∈ db'.texts, t.id = 1 → t.state = "awaiting_cross_validation") ∧
        (∃ c ∈ db'.crossvals, c.text_id = 1 ∧ c.status = "pending" ∧ c.result = []) ∧
        (∀ catId uid nowQ res, getNextText db' catId uid nowQ = some res → res.2 ≠ 1)) ∧
      ((submittedCount db' 1 : Int) < c7WText.required_annotations →
        ∀ t ∈ db'.texts, t.id = 1 → t.state = "pending")) :=
  ⟨_, rfl, c7_submit_threshold (fun s => s) c7WDb 1 5 0 c7WText _ rfl rfl⟩

/-- All keys of the author's own-row maps are below n (the ids issued before
the request). -/
def keysBounded (n : Nat) (st : LoopState) : Prop :=
  (∀ i ∈ st.byIdKeys, i < n) ∧ ∀ e ∈ st.bySpan, e.2 < n

/-- All ids of the other-author maps are below n. -/
def ctxBounded (n : Nat) (ctx : SaveCtx) : Prop :=
  (∀ i ∈ ctx.otherIds, i < n) ∧ ∀ e ∈ ctx.otherBySpan, ∀ i ∈ e.2, i < n

theorem lookup_pair_mem {α β : Type} [BEq α] [LawfulBEq α] (l : List (α × β)) (k : α) (v : β)
    (h : List.lookup k l = some v) : (k, v) ∈ l := by
  induction l with
  | nil => cases h
  | cons e es ih =>
    rcases e with ⟨k', v'⟩
    simp only [List.lookup] at h
    split at h
    · rename_i hbeq
      injection h with h'
      subst h'
      rw [eq_of_beq hbeq]
      exact List.mem_cons_self _ _
    · exact List.mem_cons_of_mem _ (ih h)

theorem dictSet_mem (m : List ((Int × Int) × Nat)) (k : Int × Int) (v : Nat)
    (e : (Int × Int) × Nat) (h : e ∈ dictSet m k v) : e ∈ m ∨ e = (k, v) := by
  unfold dictSet at h
  rcases List.mem_append.mp h with h | h
  · exact Or.inl (List.mem_filter.mp h).1
  · exact Or.inr (List.mem_singleton.mp h)

theorem lookupOwn_bound (n : Nat) (st : LoopState) (item : SaveItem) (a : DbAnn)
    (hkeys : keysBounded n st) (h : lookupOwn st item = some a) : a.id < n := by
  simp only [lookupOwn] at h
  split at h
  · rename_i a' heq
    injection h with h'
    subst h'
    split at heq
    · rename_i i hitemid
      split at heq
      · rename_i hcond
        obtain ⟨-, hid⟩ := findAnn_mem _ _ _ heq
        rw [hid]
        rw [Bool.and_eq_true] at hcond
        exact hkeys.1 i (by simpa using hcond.2)
      · cases heq
    · cases heq
  · split at h
    · rename_i i hlk
      obtain ⟨-, hid⟩ := findAnn_mem _ _ _ h
      rw [hid]
      exact hkeys.2 _ (lookup_pair_mem _ _ _ hlk)
    · cases h

theorem otherPick_bound (n : Nat) (ctx : SaveCtx) (st : LoopState) (item : SaveItem)
    (o : DbAnn) (hctx : ctxBounded n ctx)
    (h : (match lookupOtherById ctx st item with
          | some a => some a
          | none => (spanCandidates ctx st item).head?) = some o) : o.id < n := by
  split at h
  · rename_i a heq
    injection h with h'
    subst h'
    simp only [lookupOtherById] at heq
    split at heq
    · rename_i i hitemid2
      split at heq
      · rename_i hcond
        obtain ⟨-, hid⟩ := findAnn_mem _ _ _ heq
        rw [hid]
        rw [Bool.and_eq_true] at hcond
        exact hctx.1 i (by simpa using hcond.2)
      · cases heq
    · cases heq
  · have hmem := List.mem_of_mem_head? h
    simp only [spanCandidates] at hmem
    rcases List.mem_filterMap.mp hmem with ⟨i, hi, hfind⟩
    obtain ⟨-, hid⟩ := findAnn_mem _ _ _ hfind
    rw [hid]
    rcases hlk : List.lookup (item.start_token, item.end_token) ctx.otherBySpan with _ | g
    · rw [hlk] at hi
      simp at hi
    · rw [hlk] at hi
      exact hctx.2 _ (lookup_pair_mem _ _ _ hlk) i hi

theorem foldl_dictSet_bound (n : Nat) :
    ∀ (l : List DbAnn) (m0 : List ((Int × Int) × Nat)),
      (∀ a ∈ l, a.id < n) → (∀ e ∈ m0, e.2 < n) →
      ∀ e ∈ l.foldl (fun m a => dictSet m (a.start_token, a.end_token) a.id) m0, e.2 < n := by
  intro l
  induction l with
  | nil => exact fun m0 _ hm => hm
  | cons a l ih =>
    intro m0 hl hm e he
    refine ih _ (fun b hb => hl b (List.mem_cons_of_mem _ hb)) (fun e' he' => ?_) e he
    rcases dictSet_mem _ _ _ _ he' with h | h
    · exact hm _ h
    · rw [h]
      exact hl a (List.mem_cons_self _ _)

theorem mkOtherBySpan_bound (n : Nat) (l : List DbAnn) (hl : ∀ a ∈ l, a.id < n) :
    ∀ e ∈ mkOtherBySpan l, ∀ i ∈ e.2, i < n := by
  intro e he i hi
  unfold mkOtherBySpan at he
  rcases List.mem_map.mp he with ⟨s, -, rfl⟩
  have hi2 := (stableSortBy_perm _ _).mem_iff.mp hi
  rcases List.mem_map.mp hi2 with ⟨a, ha, rfl⟩
  exact hl a (List.mem_filter.mp ha).1

theorem mkLoopInit_bounded (textId userId : Nat) (db1 : SaveDb)
    (hids : ∀ a ∈ db1.anns, a.id < db1.nextId) :
    keysBounded db1.nextId (mkLoopInit textId userId db1) := by
  constructor
  · intro i hi
    rcases List.mem_map.mp hi with ⟨a, ha, rfl⟩
    exact hids a (List.mem_filter.mp ha).1
  · exact foldl_dictSet_bound _ _ []
      (fun a ha => hids a (List.mem_filter.mp ha).1)
      (fun e he => absurd he (List.not_mem_nil e))

theorem mkSaveCtx_bounded (hash : String → String) (content : String) (textId userId : Nat)
    (db1 : SaveDb) (deletedIds : List Nat)
    (hids : ∀ a ∈ db1.anns, a.id < db1.nextId) :
    ctxBounded db1.nextId (mkSaveCtx hash content textId userId db1 deletedIds) := by
  constructor
  · intro i hi
    rcases List.mem_map.mp hi with ⟨a, ha, rfl⟩
    exact hids a (List.mem_filter.mp ha).1
  · exact mkOtherBySpan_bound _ _ (fun a ha => hids a (List.mem_filter.mp ha).1)

theorem applyDeletions_sub (db : SaveDb) (textId : Nat) (ids : List Nat) :
    ∀ a ∈ (applyDeletions db textId ids).anns, a ∈ db.anns := by
  intro a ha
  unfold applyDeletions at ha
  split at ha
  · exact (List.mem_filter.mp ha).1
  · exact ha

theorem applyDeletions_nextId (db : SaveDb) (textId : Nat) (ids : List Nat) :
    (applyDeletions db textId ids).nextId = db.nextId := by
  unfold applyDeletions
  split <;> rfl

theorem applyDeletions_keep (db : SaveDb) (textId : Nat) (ids : List Nat) (a : DbAnn)
    (ha : a ∈ db.anns) (hk : ¬ (a.text_id = textId ∧ a.id ∈ ids)) :
    a ∈ (applyDeletions db textId ids).anns := by
  unfold applyDeletions
  split
  · refine List.mem_filter.mpr ⟨ha, ?_⟩
    by_cases h1 : a.text_id = textId
    · have h2 : a.id ∉ ids := fun hmem => hk ⟨h1, hmem⟩
      simp [h2]
    · simp [h1]
  · exact ha

theorem processItem_shape (ctx : SaveCtx) (st : LoopState) (item : SaveItem)
    (st' : LoopState) (h : processItem ctx st item = .ok st') :
    st' = st ∨
    (∃ a rep pay, lookupOwn st item = some a ∧
      st' = { st with db := updateAnn st.db a.id (upsertFields item rep pay),
                      savedIds := st.savedIds ++ [a.id] }) ∨
    (∃ o rep pay, (match lookupOtherById ctx st item with
        | some a => some a
        | none => (spanCandidates ctx st item).head?) = some o ∧
      st' = { db := updateAnn st.db o.id (adoptFields ctx.userId item rep pay),
              byIdKeys := st.byIdKeys ++ [o.id],
              bySpan := dictSet st.bySpan (item.start_token, item.end_token) o.id,
              savedIds := st.savedIds ++ [o.id] }) ∨
    (∃ rep pay, st' = { st with
        db := { anns := st.db.anns ++ [mkNewAnn ctx st.db.nextId item rep pay],
                versions := st.db.versions, nextId := st.db.nextId + 1 },
        savedIds := st.savedIds ++ [st.db.nextId] }) := by
  simp only [processItem] at h
  split at h
  · injection h with h'
    exact Or.inl h'.symm
  · split at h
    · simp at h
    · split at h
      · simp at h
      · split at h
        · rename_i a0 heq
          injection h with h'
          exact Or.inr (Or.inl ⟨a0, _, _, heq, h'.symm⟩)
        · split at h
          · injection h with h'
            exact Or.inl h'.symm
          · split at h
            · rename_i o heq2
              split at h
              · injection h with h'
                exact Or.inl h'.symm
              · injection h with h'
                exact Or.inr (Or.inr (Or.inl ⟨o, _, _, heq2, h'.symm⟩))
            · injection h with h'
              exact Or.inr (Or.inr (Or.inr ⟨_, _, h'.symm⟩))

theorem processItem_forward (ctx : SaveCtx) (st : LoopState) (item : SaveItem)
    (st' : LoopState) (h : processItem ctx st item = .ok st') :
    ∀ a ∈ st.db.anns, ∃ a' ∈ st'.db.anns, a'.id = a.id ∧
      (a' = a ∨ (a'.version = a.version + 1 ∧ st'.savedIds = st.savedIds ++ [a.id])) := by
  rcases processItem_shape ctx st item st' h with rfl | ⟨a0, rep, pay, -, rfl⟩ |
    ⟨o, rep, pay, -, rfl⟩ | ⟨rep, pay, rfl⟩
  · exact fun a ha => ⟨a, ha, rfl, Or.inl rfl⟩
  · intro a ha
    by_cases hc : a.id = a0.id
    · refine ⟨upsertFields item rep pay a, List.mem_map.mpr ⟨a, ha, if_pos hc⟩,
        rfl, Or.inr ⟨rfl, ?_⟩⟩
      rw [hc]
    · exact ⟨a, List.mem_map.mpr ⟨a, ha, if_neg hc⟩, rfl, Or.inl rfl⟩
  · intro a ha
    by_cases hc : a.id = o.id
    · refine ⟨adoptFields ctx.userId item rep pay a, List.mem_map.mpr ⟨a, ha, if_pos hc⟩,
        rfl, Or.inr ⟨rfl, ?_⟩⟩
      rw [hc]
    · exact ⟨a, List.mem_map.mpr ⟨a, ha, if_neg hc⟩, rfl, Or.inl rfl⟩
  · exact fun a ha => ⟨a, List.mem_append_left _ ha, rfl, Or.inl rfl⟩

theorem processItem_version_step (n : Nat) (ctx : SaveCtx) (st : LoopState) (item : SaveItem)
    (st1 : LoopState) (hctx : ctxBounded n ctx) (hkeys : keysBounded n st)
    (hn : n ≤ st.db.nextId) (h : processItem ctx st item = .ok st1) :
    keysBounded n st1 ∧ st.db.nextId ≤ st1.db.nextId ∧
    (∀ a1 ∈ st1.db.anns, a1.id < n → ∃ a ∈ st.db.anns, a.id = a1.id ∧ a.version ≤ a1.version) ∧
    (∀ a1 ∈ st1.db.anns, n ≤ a1.id → a1 ∈ st.db.anns ∨ (st.db.nextId ≤ a1.id ∧ a1.version = 1)) ∧
    ((∀ i ∈ st.savedIds, ∃ a ∈ st.db.anns, a.id = i) →
      ∀ i ∈ st1.savedIds, ∃ a ∈ st1.db.anns, a.id = i) := by
  rcases processItem_shape ctx st item st1 h with rfl | ⟨a0, rep, pay, hown, rfl⟩ |
    ⟨o, rep, pay, hpick, rfl⟩ | ⟨rep, pay, rfl⟩
  · exact ⟨hkeys, Nat.le_refl _, fun a1 h1 _ => ⟨a1, h1, rfl, le_refl _⟩,
      fun a1 h1 _ => Or.inl h1, fun hsp => hsp⟩
  · have hj : a0.id < n := lookupOwn_bound n st item a0 hkeys hown
    refine ⟨hkeys, Nat.le_of_eq rfl, ?_, ?_, ?_⟩
    · intro a1 h1 hlt
      rcases List.mem_map.mp h1 with ⟨a, ha, rfl⟩
      by_cases hc : a.id = a0.id
      · rw [if_pos hc]
        refine ⟨a, ha, rfl, ?_⟩
        have : (upsertFields item rep pay a).version = a.version + 1 := rfl
        omega
      · rw [if_neg hc]
        exact ⟨a, ha, rfl, le_refl _⟩
    · intro a1 h1 hge
      rcases List.mem_map.mp h1 with ⟨a, ha, rfl⟩
      by_cases hc : a.id = a0.id
      · rw [if_pos hc] at hge ⊢
        have : (upsertFields item rep pay a).id = a.id := rfl
        rw [this] at hge
        omega
      · rw [if_neg hc]
        rw [if_neg hc] at h1
        exact Or.inl ha
    · intro hsp i hi
      rcases List.mem_append.mp hi with hi | hi
      · rcases hsp i hi with ⟨a, ha, hai⟩
        by_cases hc : a.id = a0.id
        · exact ⟨upsertFields item rep pay a, List.mem_map.mpr ⟨a, ha, if_pos hc⟩, hai⟩
        · exact ⟨a, List.mem_map.mpr ⟨a, ha, if_neg hc⟩, hai⟩
      · rw [List.mem_singleton.mp hi]
        exact ⟨upsertFields item rep pay a0,
          List.mem_map.mpr ⟨a0, lookupOwn_mem st item a0 hown, if_pos rfl⟩, rfl⟩
  · have hj : o.id < n := otherPick_bound n ctx st item o hctx hpick
    refine ⟨⟨?_, ?_⟩, Nat.le_of_eq rfl, ?_, ?_, ?_⟩
    · intro i hi
      rcases List.mem_append.mp hi with hi | hi
      · exact hkeys.1 i hi
      · rw [List.mem_singleton.mp hi]
        exact hj
    · intro e he
      rcases dictSet_mem _ _ _ _ he with he | he
      · exact hkeys.2 e he
      · rw [he]
        exact hj
    · intro a1 h1 hlt
      rcases List.mem_map.mp h1 with ⟨a, ha, rfl⟩
      by_cases hc : a.id = o.id
      · rw [if_pos hc]
        refine ⟨a, ha, rfl, ?_⟩
        have : (adoptFields ctx.userId item rep pay a).version = a.version + 1 := rfl
        omega
      · rw [if_neg hc]
        exact ⟨a, ha, rfl, le_refl _⟩
    · intro a1 h1 hge
      rcases List.mem_map.mp h1 with ⟨a, ha, rfl⟩
      by_cases hc : a.id = o.id
      · rw [if_pos hc] at hge ⊢
        have : (adoptFields ctx.userId item rep pay a).id = a.id := rfl
        rw [this] at hge
        omega
      · rw [if_neg hc]
        exact Or.inl ha
    · intro hsp i hi
      rcases List.mem_append.mp hi with hi | hi
      · rcases hsp i hi with ⟨a, ha, hai⟩
        by_cases hc : a.id = o.id
        · exact ⟨adoptFields ctx.userId item rep pay a,
            List.mem_map.mpr ⟨a, ha, if_pos hc⟩, hai⟩
        · exact ⟨a, List.mem_map.mpr ⟨a, ha, if_neg hc⟩, hai⟩
      · rw [List.mem_singleton.mp hi]
        exact ⟨adoptFields ctx.userId item rep pay o,
          List.mem_map.mpr ⟨o, otherPick_mem ctx st item o hpick, if_pos rfl⟩, rfl⟩
  · refine ⟨hkeys, Nat.le_succ _, ?_, ?_, ?_⟩
    · intro a1 h1 hlt
      rcases List.mem_append.mp h1 with h1 | h1
      · exact ⟨a1, h1, rfl, le_refl _⟩
      · rw [List.mem_singleton.mp h1] at hlt
        have : st.db.nextId < n := hlt
        omega
    · intro a1 h1 hge
      rcases List.mem_append.mp h1 with h1 | h1
      · exact Or.inl h1
      · rw [List.mem_singleton.mp h1]
        exact Or.inr ⟨Nat.le_of_eq rfl, rfl⟩
    · intro hsp i hi
      rcases List.mem_append.mp hi with hi | hi
      · rcases hsp i hi with ⟨a, ha, hai⟩
        exact ⟨a, List.mem_append_left _ ha, hai⟩
      · rw [List.mem_singleton.mp hi]
        exact ⟨mkNewAnn ctx st.db.nextId item rep pay,
          List.mem_append_right _ (List.mem_singleton_self _), rfl⟩

theorem processAll_version (n : Nat) (ctx : SaveCtx) (hctx : ctxBounded n ctx) :
    ∀ (items : List SaveItem) (st st' : LoopState), keysBounded n st → n ≤ st.db.nextId →
    processAll ctx st items = .ok st' →
    st.db.nextId ≤ st'.db.nextId ∧
    (∀ a ∈ st.db.anns, ∃ a' ∈ st'.db.anns, a'.id = a.id ∧ a.version ≤ a'.version) ∧
    (∀ a' ∈ st'.db.anns, a'.id < n → ∃ a ∈ st.db.anns, a.id = a'.id ∧ a.version ≤ a'.version) ∧
    (∀ a' ∈ st'.db.anns, n ≤ a'.id → a' ∈ st.db.anns ∨ (st.db.nextId ≤ a'.id ∧ a'.version = 1)) ∧
    ((∀ i ∈ st.savedIds, ∃ a ∈ st.db.anns, a.id = i) →
      ∀ i ∈ st'.savedIds, ∃ a ∈ st'.db.anns, a.id = i) := by
  intro items
  induction items with
  | nil =>
    intro st st' _ _ h
    simp only [processAll] at h
    injection h with h'
    subst h'
    exact ⟨Nat.le_refl _, fun a ha => ⟨a, ha, rfl, le_refl _⟩,
      fun a' h' _ => ⟨a', h', rfl, le_refl _⟩, fun a' h' _ => Or.inl h', fun hsp => hsp⟩
  | cons item rest ih =>
    intro st st' hkeys hn h
    simp only [processAll] at h
    split at h
    · cases h
    · rename_i st1 hstep
      obtain ⟨hkeys1, hnext1, hbklt1, hbkge1, hsp1⟩ :=
        processItem_version_step n ctx st item st1 hctx hkeys hn hstep
      have hfw1 := processItem_forward ctx st item st1 hstep
      obtain ⟨hnext2, hfw2, hbklt2, hbkge2, hsp2⟩ :=
        ih st1 st' hkeys1 (le_trans hn hnext1) h
      refine ⟨le_trans hnext1 hnext2, ?_, ?_, ?_, ?_⟩
      · intro a ha
        rcases hfw1 a ha with ⟨a1, h1, hid1, hv1⟩
        rcases hfw2 a1 h1 with ⟨a', h', hid', hv'⟩
        refine ⟨a', h', by rw [hid', hid1], ?_⟩
        rcases hv1 with rfl | ⟨hv1, -⟩
        · exact hv'
        · omega
      · intro a' h' hlt
        rcases hbklt2 a' h' hlt with ⟨a1, h1, hid1, hv1⟩
        rcases hbklt1 a1 h1 (by rw [hid1]; exact hlt) with ⟨a, ha, hid, hv⟩
        exact ⟨a, ha, by rw [hid, hid1], by omega⟩
      · intro a' h' hge
        rcases hbkge2 a' h' hge with h1 | ⟨hge1, hv1⟩
        · rcases hbkge1 a' h1 hge with h0 | ⟨hge0, hv0⟩
          · exact Or.inl h0
          · exact Or.inr ⟨hge0, hv0⟩
        · exact Or.inr ⟨le_trans hnext1 hge1, hv1⟩
      · intro hsp
        exact hsp2 (hsp1 hsp)

/-- C3: across a successful save_annotations request, every pre-existing
annotation of the text that is not deleted keeps its id and its version never
decreases; every row whose id was issued during the request (a fresh insert)
ends the request at version 1; every saved id gets an AnnotationVersion
snapshot row recording its post-update version and field snapshot; and each
upsert-loop step leaves every stored row untouched or bumps its version by
exactly 1 while appending exactly that row's id to the saved list. -/
theorem c3_version_invariants (hash : String → String) (content : String)
    (textId userId : Nat) (db : SaveDb) (req : SaveRequest) (db' : SaveDb)
    (saved : List Nat)
    (hids : ∀ a ∈ db.anns, a.id < db.nextId)
    (hok : save_annotations hash content textId userId db req = .ok (db', saved)) :
    (∀ a ∈ db.anns, ¬ (a.text_id = textId ∧ a.id ∈ req.deleted_ids) →
      ∃ a' ∈ db'.anns, a'.id = a.id ∧ a.version ≤ a'.version) ∧
    (∀ a' ∈ db'.anns, db.nextId ≤ a'.id → a'.version = 1) ∧
    (∀ i ∈ saved, ∃ a ∈ db'.anns, a.id = i ∧
      ({ annotation_id := i, version := a.version, snapshot := snapOf a } : AnnVersionRow)
        ∈ db'.versions) ∧
    (∀ (ctx : SaveCtx) (st : LoopState) (item : SaveItem) (st' : LoopState),
      processItem ctx st item = .ok st' →
      ∀ a ∈ st.db.anns, ∃ a' ∈ st'.db.anns, a'.id = a.id ∧
        (a' = a ∨ (a'.version = a.version + 1 ∧ st'.savedIds = st.savedIds ++ [a.id]))) := by
  simp only [save_annotations] at hok
  split at hok
  · cases hok
  · simp only [saveFinish] at hok
    split at hok
    · cases hok
    · rename_i stf hloop
      injection hok with hok'
      rw [Prod.mk.injEq] at hok'
      obtain ⟨hdb', hsaved⟩ := hok'
      subst hdb'
      subst hsaved
      have hnId : (applyDeletions db textId req.deleted_ids).nextId = db.nextId :=
        applyDeletions_nextId db textId req.deleted_ids
      have hids1 : ∀ a ∈ (applyDeletions db textId req.deleted_ids).anns, a.id < db.nextId :=
        fun a ha => hids a (applyDeletions_sub db textId req.deleted_ids a ha)
      have hctx := mkSaveCtx_bounded hash content textId userId
        (applyDeletions db textId req.deleted_ids) req.deleted_ids
        (fun a ha => by rw [hnId]; exact hids1 a ha)
      rw [hnId] at hctx
      have hkeys0 := mkLoopInit_bounded textId userId
        (applyDeletions db textId req.deleted_ids)
        (fun a ha => by rw [hnId]; exact hids1 a ha)
      rw [hnId] at hkeys0
      have hn0 : db.nextId ≤
          (mkLoopInit textId userId (applyDeletions db textId req.deleted_ids)).db.nextId :=
        Nat.le_of_eq hnId.symm
      obtain ⟨hA, hfw, hbklt, hbkge, hsp⟩ := processAll_version db.nextId _ hctx req.anns
        (mkLoopInit textId userId (applyDeletions db textId req.deleted_ids)) stf
        hkeys0 hn0 hloop
      refine ⟨?_, ?_, ?_, fun ctx st item st' hstep => processItem_forward ctx st item st' hstep⟩
      · intro a ha hkeep
        exact hfw a (applyDeletions_keep db textId req.deleted_ids a ha hkeep)
      · intro a' ha' hge
        rcases hbkge a' ha' hge with h0 | ⟨-, hv⟩
        · have := hids1 a' h0
          omega
        · exact hv
      · intro i hi
        have hsp0 : ∀ j ∈ (mkLoopInit textId userId
            (applyDeletions db textId req.deleted_ids)).savedIds,
            ∃ a ∈ (mkLoopInit textId userId
              (applyDeletions db textId req.deleted_ids)).db.anns, a.id = j :=
          fun j hj => absurd hj (List.not_mem_nil j)
        rcases hsp hsp0 i hi with ⟨a, ha, hai⟩
        cases hfind : findAnn stf.db i with
        | none =>
          exfalso
          simp only [findAnn] at hfind
          have := List.find?_eq_none.mp hfind a ha
          simp [hai] at this
        | some a0 =>
          obtain ⟨ha0, ha0id⟩ := findAnn_mem _ _ _ hfind
          refine ⟨a0, ha0, ha0id, ?_⟩
          refine List.mem_append_right _ (List.mem_filterMap.mpr ⟨i, hi, ?_⟩)
          rw [hfind]

/-- Demo stored row for the version-invariants witness. -/
def c3WAnn : DbAnn :=
  { id := 1, text_id := 1, author_id := 5, start_token := 0, end_token := 1,
    replacement := some "x", error_type_id := 7,
    payload := { operation := some "replace" }, version := 3 }

/-- Demo store for the version-invariants witness. -/
def c3WDb : SaveDb := { anns := [c3WAnn], versions := [], nextId := 2 }

/-- Demo incoming item for the version-invariants witness. -/
def c3WItem : SaveItem :=
  { id := some 1, start_token := 0, end_token := 1, replacement := some "y",
    error_type_id := 7, payload := { operation := some "replace" } }

/-- Demo request for the version-invariants witness. -/
def c3WReq : SaveRequest := { anns := [c3WItem], client_version := 0, deleted_ids := [] }

/-- Witness: the version-invariants theorem applied to a store with one
version-3 row updated by its own author through an explicit id. -/
theorem c3_version_invariants_witness :
    (∀ a ∈ c3WDb.anns, a.id < c3WDb.nextId) ∧
    ∃ db' saved, save_annotations (fun s => s) "a b" 1 5 c3WDb c3WReq = .ok (db', saved) ∧
      ((∀ a ∈ c3WDb.anns, ¬ (a.text_id = 1 ∧ a.id ∈ c3WReq.deleted_ids) →
        ∃ a' ∈ db'.anns, a'.id = a.id ∧ a.version ≤ a'.version) ∧
      (∀ a' ∈ db'.anns, c3WDb.nextId ≤ a'.id → a'.version = 1) ∧
      (∀ i ∈ saved, ∃ a ∈ db'.anns, a.id = i ∧
        ({ annotation_id := i, version := a.version, snapshot := snapOf a } : AnnVersionRow)
          ∈ db'.versions) ∧
      (∀ (ctx : SaveCtx) (st : LoopState) (item : SaveItem) (st' : LoopState),
        processItem ctx st item = .ok st' →
        ∀ a ∈ st.db.anns, ∃ a' ∈ st'.db.anns, a'.id = a.id ∧
          (a' = a ∨ (a'.version = a.version + 1 ∧ st'.savedIds = st.savedIds ++ [a.id])))) :=
  ⟨by decide, _, _, rfl,
    c3_version_invariants (fun s => s) "a b" 1 5 c3WDb c3WReq _ _ (by decide) rfl⟩

theorem taskPairDescLe_refl (a : TaskRow) : taskPairDescLe a a = true := by
  simp [taskPairDescLe]

theorem taskPairDescLe_total (a b : TaskRow) :
    taskPairDescLe a b = true ∨ taskPairDescLe b a = true := by
  simp only [taskPairDescLe, Bool.or_eq_true, Bool.and_eq_true, decide_eq_true_eq]
  omega

theorem taskPairDescLe_trans (a b c : TaskRow) (h1 : taskPairDescLe a b = true)
    (h2 : taskPairDescLe b c = true) : taskPairDescLe a c = true := by
  simp only [taskPairDescLe, Bool.or_eq_true, Bool.and_eq_true, decide_eq_true_eq] at h1 h2 ⊢
  omega

theorem chooseRecord_eq_head (l : List ExportRecord) : chooseRecord l = l.head? := by
  cases l <;> simp [chooseRecord]

theorem exportTaskOk_text (db : WorldDb) (categories : List Nat) (start stop : Option Int)
    (k : TaskRow) (h : exportTaskOk db categories start stop k = true) :
    ∃ t, db.texts.find? (fun t => t.id = k.text_id) = some t := by
  simp only [exportTaskOk, Bool.and_eq_true] at h
  obtain ⟨⟨h1, -⟩, -⟩ := h
  split at h1
  · rename_i t heq
    exact ⟨t, heq⟩
  · cases h1

theorem addToGroup_spec (gs : List (Nat × List TaskRow)) (a : TaskRow)
    (processed : List TaskRow)
    (h1 : (gs.map (fun g => g.1)).Nodup)
    (h2 : ∀ g ∈ gs, g.2 = processed.filter (fun k => decide (k.text_id = g.1)))
    (h3 : ∀ k ∈ processed, ∃ g ∈ gs, g.1 = k.text_id) :
    ((addToGroup gs a).map (fun g => g.1)).Nodup ∧
    (∀ g ∈ addToGroup gs a,
      g.2 = (processed ++ [a]).filter (fun k => decide (k.text_id = g.1))) ∧
    (∀ k ∈ processed ++ [a], ∃ g ∈ addToGroup gs a, g.1 = k.text_id) := by
  unfold addToGroup
  split
  · rename_i hany
    have hkeys : (gs.map (fun g => if g.1 = a.text_id then (g.1, g.2 ++ [a]) else g)).map
        (fun g => g.1) = gs.map (fun g => g.1) := by
      rw [List.map_map]
      refine List.map_congr_left ?_
      intro g _
      by_cases hc : g.1 = a.text_id <;> simp [hc]
    refine ⟨by rw [hkeys]; exact h1, ?_, ?_⟩
    · intro g hg
      rcases List.mem_map.mp hg with ⟨g0, hg0, rfl⟩
      rw [List.filter_append]
      by_cases hc : g0.1 = a.text_id
      · rw [if_pos hc]
        simp only
        rw [h2 g0 hg0]
        have : a.text_id = g0.1 := hc.symm
        simp [this]
      · rw [if_neg hc]
        rw [h2 g0 hg0]
        have : ¬ a.text_id = g0.1 := fun h => hc h.symm
        simp [this]
    · intro k hk
      rcases List.mem_append.mp hk with hk | hk
      · rcases h3 k hk with ⟨g, hg, hgid⟩
        refine ⟨(fun g => if g.1 = a.text_id then (g.1, g.2 ++ [a]) else g) g,
          List.mem_map_of_mem _ hg, ?_⟩
        by_cases hc : g.1 = a.text_id <;> simp [hc, ← hgid]
      · obtain rfl := List.mem_singleton.mp hk
        rcases List.any_eq_true.mp hany with ⟨g, hg, hga⟩
        have hga' : g.1 = k.text_id := of_decide_eq_true hga
        refine ⟨(g.1, g.2 ++ [k]), List.mem_map.mpr ⟨g, hg, ?_⟩, hga'⟩
        rw [if_pos hga']
  · rename_i hany
    have hnotmem : a.text_id ∉ gs.map (fun g => g.1) := by
      intro hmem
      rcases List.mem_map.mp hmem with ⟨g, hg, hgid⟩
      exact hany (List.any_eq_true.mpr ⟨g, hg, by simp [hgid]⟩)
    refine ⟨?_, ?_, ?_⟩
    · rw [List.map_append]
      refine List.Nodup.append h1 (List.nodup_singleton _) ?_
      intro x hx hx2
      rw [List.mem_singleton.mp hx2] at hx
      exact hnotmem hx
    · intro g hg
      rcases List.mem_append.mp hg with hg | hg
      · rw [List.filter_append, h2 g hg]
        have : ¬ a.text_id = g.1 := by
          intro h
          exact hnotmem (h ▸ List.mem_map_of_mem _ hg)
        simp [this]
      · obtain rfl := List.mem_singleton.mp hg
        simp only
        rw [List.filter_append]
        have hnil : processed.filter (fun k => decide (k.text_id = a.text_id)) = [] := by
          rw [List.filter_eq_nil_iff]
          intro k hk
          rcases h3 k hk with ⟨g, hg, hgid⟩
          simp only [decide_eq_true_eq]
          intro hkeq
          exact hany (List.any_eq_true.mpr ⟨g, hg, by simp [hgid, hkeq]⟩)
        rw [hnil]
        simp
    · intro k hk
      rcases List.mem_append.mp hk with hk | hk
      · rcases h3 k hk with ⟨g, hg, hgid⟩
        exact ⟨g, List.mem_append_left _ hg, hgid⟩
      · obtain rfl := List.mem_singleton.mp hk
        exact ⟨(k.text_id, [k]), List.mem_append_right _ (List.mem_singleton_self _), rfl⟩

theorem foldl_addToGroup_spec :
    ∀ (rest processed : List TaskRow) (gs : List (Nat × List TaskRow)),
    ((gs.map (fun g => g.1)).Nodup) →
    (∀ g ∈ gs, g.2 = processed.filter (fun k => decide (k.text_id = g.1))) →
    (∀ k ∈ processed, ∃ g ∈ gs, g.1 = k.text_id) →
    (((rest.foldl addToGroup gs).map (fun g => g.1)).Nodup ∧
     (∀ g ∈ rest.foldl addToGroup gs,
       g.2 = (processed ++ rest).filter (fun k => decide (k.text_id = g.1))) ∧
     (∀ k ∈ processed ++ rest, ∃ g ∈ rest.foldl addToGroup gs, g.1 = k.text_id)) := by
  intro rest
  induction rest with
  | nil =>
    intro processed gs h1 h2 h3
    refine ⟨h1, ?_, ?_⟩
    · intro g hg
      rw [List.append_nil]
      exact h2 g hg
    · intro k hk
      rw [List.append_nil] at hk
      exact h3 k hk
  | cons a rest ih =>
    intro processed gs h1 h2 h3
    obtain ⟨s1, s2, s3⟩ := addToGroup_spec gs a processed h1 h2 h3
    have := ih (processed ++ [a]) (addToGroup gs a) s1 s2 s3
    rw [List.append_assoc] at this
    exact this

theorem groupByText_spec (ks : List TaskRow) :
    (((groupByText ks).map (fun g => g.1)).Nodup) ∧
    (∀ g ∈ groupByText ks, g.2 = ks.filter (fun k => decide (k.text_id = g.1))) ∧
    (∀ k ∈ ks, ∃ g ∈ groupByText ks, g.1 = k.text_id) := by
  have := foldl_addToGroup_spec ks [] [] (by simp) (by simp) (by simp)
  simpa [groupByText] using this

theorem filterMap_key_nodup {α β γ : Type} (f : α → Option β) (key : α → γ) (m : β → γ)
    (l : List α) (hf : ∀ a b, f a = some b → m b = key a)
    (h : (l.map key).Nodup) : ((l.filterMap f).map m).Nodup := by
  induction l with
  | nil => simp
  | cons a l ih =>
    rw [List.map_cons, List.nodup_cons] at h
    rw [List.filterMap_cons]
    cases hfa : f a with
    | none => exact ih h.2
    | some b =>
      rw [List.map_cons, List.nodup_cons]
      refine ⟨?_, ih h.2⟩
      intro hmem
      rcases List.mem_map.mp hmem with ⟨b', hb', hmb⟩
      rcases List.mem_filterMap.mp hb' with ⟨a', ha', hfa'⟩
      have h1 := hf a b hfa
      have h2 := hf a' b' hfa'
      have hk : key a' = key a := by rw [← h2, hmb, h1]
      exact h.1 (hk ▸ List.mem_map_of_mem key ha')

theorem sorted_group_max (ks0 : List TaskRow) (g : Nat × List TaskRow)
    (hg : g ∈ groupByText (stableSortBy taskPairDescLe ks0)) (k0 : TaskRow)
    (hhead : g.2.head? = some k0) :
    k0 ∈ ks0 ∧ k0.text_id = g.1 ∧
    ∀ k' ∈ ks0, k'.text_id = g.1 → taskPairDescLe k0 k' = true := by
  obtain ⟨-, hchar, -⟩ := groupByText_spec (stableSortBy taskPairDescLe ks0)
  have hg2 := hchar g hg
  have hk0mem : k0 ∈ g.2 := List.mem_of_mem_head? hhead
  have hk0T : k0 ∈ stableSortBy taskPairDescLe ks0 := by
    rw [hg2] at hk0mem
    exact (List.mem_filter.mp hk0mem).1
  have hk0tid : k0.text_id = g.1 := by
    rw [hg2] at hk0mem
    exact of_decide_eq_true (List.mem_filter.mp hk0mem).2
  refine ⟨(stableSortBy_perm _ _).mem_iff.mp hk0T, hk0tid, ?_⟩
  intro k' hk' htid
  have hk'T : k' ∈ stableSortBy taskPairDescLe ks0 :=
    (stableSortBy_perm _ _).mem_iff.mpr hk'
  have hk'g : k' ∈ g.2 := by
    rw [hg2]
    exact List.mem_filter.mpr ⟨hk'T, by simp [htid]⟩
  have hpwT : (stableSortBy taskPairDescLe ks0).Pairwise
      (fun x y => taskPairDescLe x y = true) :=
    stableSortBy_pairwise _ taskPairDescLe_trans taskPairDescLe_total _
  have hpwg : g.2.Pairwise (fun x y => taskPairDescLe x y = true) := by
    rw [hg2]
    exact List.Pairwise.sublist (List.filter_sublist _) hpwT
  obtain ⟨tl, hcons⟩ : ∃ tl, g.2 = k0 :: tl := by
    cases hg2' : g.2 with
    | nil =>
      rw [hg2'] at hhead
      cases hhead
    | cons x tl =>
      rw [hg2'] at hhead
      injection hhead with hh
      exact ⟨tl, by rw [hh]⟩
  rw [hcons] at hk'g hpwg
  rcases List.mem_cons.mp hk'g with rfl | hk'tl
  · exact taskPairDescLe_refl _
  · exact (List.pairwise_cons.mp hpwg).1 k' hk'tl

/-- C10: every record of the bulk export comes from the single submitted
task whose (updated_at, id) key is maximal among the text's exporting tasks,
built over only that annotator's rows; the bulk export emits at most one
record per text id and at least one for every exporting task's text; and the
single-text export picks the same maximal task. -/
theorem c10_export_latest_annotator (db : WorldDb) (categories : List Nat)
    (start stop : Option Int) (tid : Nat) :
    (∀ r ∈ export_submitted_texts db categories start stop,
      ∃ t k, db.texts.find? (fun x => x.id = k.text_id) = some t ∧
        k ∈ db.tasks ∧ exportTaskOk db categories start stop k = true ∧
        r.id = t.id ∧ k.text_id = t.id ∧
        (∀ k' ∈ db.tasks, exportTaskOk db categories start stop k' = true →
          k'.text_id = k.text_id → taskPairDescLe k k' = true) ∧
        r = buildExportRecord db.error_types t (annsForTask db k)) ∧
    ((export_submitted_texts db categories start stop).map (fun r => r.id)).Nodup ∧
    (∀ k ∈ db.tasks, exportTaskOk db categories start stop k = true →
      ∃ r ∈ export_submitted_texts db categories start stop, r.id = k.text_id) ∧
    (∀ r, export_single_text db tid = some r →
      ∃ t k, db.texts.find? (fun x => x.id = k.text_id) = some t ∧
        k ∈ db.tasks ∧ k.text_id = tid ∧ exportTaskOk db [] none none k = true ∧
        r.id = t.id ∧
        (∀ k' ∈ db.tasks, k'.text_id = tid → exportTaskOk db [] none none k' = true →
          taskPairDescLe k k' = true) ∧
        r = buildExportRecord db.error_types t (annsForTask db k)) := by
  refine ⟨?_, ?_, ?_, ?_⟩
  · intro r hr
    simp only [export_submitted_texts] at hr
    rcases List.mem_filterMap.mp hr with ⟨g, hg, hfg⟩
    split at hfg
    · cases hfg
    · rename_i t hfind
      rw [chooseRecord_eq_head, List.head?_map] at hfg
      cases hh : g.2.head? with
      | none =>
        rw [hh] at hfg
        cases hfg
      | some k0 =>
        rw [hh] at hfg
        injection hfg with hfg'
        obtain ⟨hk0mem, hk0tid, hmax⟩ := sorted_group_max
          (db.tasks.filter (exportTaskOk db categories start stop)) g hg k0 hh
        have hk0' := List.mem_filter.mp hk0mem
        have htid : t.id = g.1 := by simpa using List.find?_some hfind
        refine ⟨t, k0, ?_, hk0'.1, hk0'.2, ?_, ?_, ?_, hfg'.symm⟩
        · rw [hk0tid]
          exact hfind
        · rw [← hfg']
          rfl
        · rw [hk0tid, htid]
        · intro k' hk' hok htid'
          exact hmax k' (List.mem_filter.mpr ⟨hk', hok⟩) (by rw [htid', hk0tid])
  · simp only [export_submitted_texts]
    refine filterMap_key_nodup _ (fun (g : Nat × List TaskRow) => g.1)
      (fun (r : ExportRecord) => r.id) _ ?_ (groupByText_spec _).1
    intro g r hfg
    split at hfg
    · cases hfg
    · rename_i t hfind
      rw [chooseRecord_eq_head, List.head?_map] at hfg
      cases hh : g.2.head? with
      | none =>
        rw [hh] at hfg
        cases hfg
      | some k0 =>
        rw [hh] at hfg
        injection hfg with hfg'
        rw [← hfg']
        simpa using List.find?_some hfind
  · intro k hk hok
    have hkT : k ∈ stableSortBy taskPairDescLe
        (db.tasks.filter (exportTaskOk db categories start stop)) :=
      (stableSortBy_perm _ _).mem_iff.mpr (List.mem_filter.mpr ⟨hk, hok⟩)
    obtain ⟨-, hchar, hcompl⟩ := groupByText_spec (stableSortBy taskPairDescLe
      (db.tasks.filter (exportTaskOk db categories start stop)))
    rcases hcompl k hkT with ⟨g, hg, hgid⟩
    obtain ⟨t, hfind⟩ := exportTaskOk_text db categories start stop k hok
    have hkg : k ∈ g.2 := by
      rw [hchar g hg]
      exact List.mem_filter.mpr ⟨hkT, by simp [hgid.symm]⟩
    cases hh : g.2.head? with
    | none =>
      rw [List.head?_eq_none_iff] at hh
      rw [hh] at hkg
      cases hkg
    | some k0 =>
      refine ⟨buildExportRecord db.error_types t (annsForTask db k0), ?_, ?_⟩
      · simp only [export_submitted_texts]
        refine List.mem_filterMap.mpr ⟨g, hg, ?_⟩
        rw [hgid, hfind]
        dsimp only
        rw [chooseRecord_eq_head, List.head?_map, hh]
        rfl
      · have h2 : t.id = k.text_id := by simpa using List.find?_some hfind
        exact h2
  · intro r hsing
    simp only [export_single_text] at hsing
    split at hsing
    · cases hsing
    · rename_i t0 rest heqT
      split at hsing
      · cases hsing
      · rename_i t hfind
        rw [chooseRecord_eq_head, List.head?_map, heqT] at hsing
        simp only [List.head?_cons] at hsing
        injection hsing with hsing'
        have ht0T : t0 ∈ stableSortBy taskPairDescLe
            (db.tasks.filter (fun k => k.text_id = tid &&
              exportTaskOk db [] none none k)) := by
          rw [heqT]
          exact List.mem_cons_self _ _
        have ht0f := List.mem_filter.mp ((stableSortBy_perm _ _).mem_iff.mp ht0T)
        rw [Bool.and_eq_true] at ht0f
        have ht0tid : t0.text_id = tid := of_decide_eq_true ht0f.2.1
        refine ⟨t, t0, hfind, ht0f.1, ht0tid, ht0f.2.2, ?_, ?_, hsing'.symm⟩
        · rw [← hsing']
          rfl
        · intro k' hk' htid' hok'
          have hk'T : k' ∈ stableSortBy taskPairDescLe
              (db.tasks.filter (fun k => k.text_id = tid &&
                exportTaskOk db [] none none k)) :=
            (stableSortBy_perm _ _).mem_iff.mpr
              (List.mem_filter.mpr ⟨hk', by simp [htid', hok']⟩)
          have hpwT := stableSortBy_pairwise taskPairDescLe taskPairDescLe_trans
            taskPairDescLe_total
            (db.tasks.filter (fun k => k.text_id = tid && exportTaskOk db [] none none k))
          rw [heqT] at hk'T hpwT
          rcases List.mem_cons.mp hk'T with rfl | hk'tl
          · exact taskPairDescLe_refl _
          · exact (List.pairwise_cons.mp hpwT).1 k' hk'tl

/-- Demo text for the export witness. -/
def c10WText : TextRow :=
  { id := 1, category_id := 2, content := "hello", required_annotations := 2,
    state := "completed", locked_by_id := none, locked_at := none }

/-- Demo submitted tasks for the export witness: two annotators, the second
more recently updated. -/
def c10WTask : TaskRow :=
  { id := 1, text_id := 1, annotator_id := 5, status := "submitted", updated_at := 10 }

/-- The second, later task of the export witness. -/
def c10WTask2 : TaskRow :=
  { id := 2, text_id := 1, annotator_id := 6, status := "submitted", updated_at := 20 }

/-- Demo store for the export witness. -/
def c10WDb : WorldDb :=
  { categories := [2], texts := [c10WText], tasks := [c10WTask, c10WTask2], skips := [],
    crossvals := [], anns := [], annVersions := [], error_types := [], nextTaskId := 3,
    nextAnnId := 1, nextSkipId := 1, nextErrorTypeId := 1 }

/-- Witness: the export theorem's per-text completeness conjunct applied to a
two-annotator store produces a record for the text. -/
theorem c10_export_latest_annotator_witness :
    c10WTask ∈ c10WDb.tasks ∧ exportTaskOk c10WDb [] none none c10WTask = true ∧
    ∃ r ∈ export_submitted_texts c10WDb [] none none, r.id = c10WTask.text_id :=
  ⟨by decide, by decide,
    (c10_export_latest_annotator c10WDb [] none none 1).2.2.1 c10WTask
      (by decide) (by decide)⟩
